import Mathlib

/-! The guilds tree of discordo (`cmd/guilds_tree.go`).

A shallow embedding of the filterable navigation tree.  Go pointers to
`tview.TreeNode` objects are node addresses (`Nat`); the object graph is kept
as the two trees hanging off `originalRoot` and `tempRoot`.  Go strings are
byte sequences.  The chat-service client, the unread tracker and the library
functions the file calls are collected in `Env`.
-/

namespace Discordo

/-! ## Go strings -/

/-- A Go `string`: a sequence of bytes. -/
abbrev GoString := List Nat

/-- The Go conversion `string(r)` of a rune: its UTF-8 encoding, and the
encoding of U+FFFD for a value that is not a valid code point. -/
def encodeRune (r : Int) : GoString :=
  let n := r.toNat
  if r < 0 then [0xEF, 0xBF, 0xBD]
  else if n < 0x80 then [n]
  else if n < 0x800 then [0xC0 + n / 64, 0x80 + n % 64]
  else if 0xD800 ≤ n ∧ n ≤ 0xDFFF then [0xEF, 0xBF, 0xBD]
  else if n < 0x10000 then [0xE0 + n / 4096, 0x80 + (n / 64) % 64, 0x80 + n % 64]
  else if n ≤ 0x10FFFF then
    [0xF0 + n / 262144, 0x80 + (n / 4096) % 64, 0x80 + (n / 64) % 64, 0x80 + n % 64]
  else [0xEF, 0xBF, 0xBD]

/-- The bytes of a string literal. -/
def goString (s : String) : GoString :=
  s.toList.flatMap (fun c => encodeRune (Int.ofNat c.toNat))

/-- The byte-wise `strings.Contains`. -/
def stringsContains (s sub : GoString) : Bool :=
  s.tails.any (fun t => sub.isPrefixOf t)

/-- The lower-casing of `strings.ToLower` on ASCII letters; other bytes are kept. -/
def asciiToLower (s : GoString) : GoString :=
  s.map (fun b => if 65 ≤ b ∧ b ≤ 90 then b + 32 else b)

/-! ## Chat-service data -/

/-- The type `discord.Snowflake`, an unsigned 64-bit number. -/
abbrev Snowflake := Nat

/-- The constant `discord.NullSnowflake`: all 64 bits set. -/
def NullSnowflake : Snowflake := 2 ^ 64 - 1

/-- The method `Snowflake.IsValid`: the number is neither zero nor the null
snowflake. -/
def Snowflake.IsValid (s : Snowflake) : Bool :=
  !(decide (s % 2 ^ 64 = 0) || decide (s % 2 ^ 64 = NullSnowflake))

/-- The channel kinds of `discord.ChannelType` the file tells apart. -/
inductive ChannelType where
  | GuildText
  | DirectMessage
  | GuildVoice
  | GroupDM
  | GuildCategory
  | other (n : Nat)
  deriving DecidableEq, Repr

/-- The fields of `discord.Channel` the file reads. -/
structure Channel where
  ID : Snowflake
  GuildID : Snowflake
  ParentID : Snowflake
  LastMessageID : Snowflake
  Type_ : ChannelType
  Position : Int
  Name : GoString
  deriving DecidableEq, Repr

/-- The fields of `discord.Guild` the file reads. -/
structure Guild where
  ID : Snowflake
  Name : GoString
  deriving DecidableEq, Repr

/-- The fields of `gateway.GuildFolder` the file reads. -/
structure GuildFolder where
  Name : GoString
  Color : Nat
  GuildIDs : List Snowflake
  deriving DecidableEq, Repr

/-- A message, known by its id only. -/
structure Message where
  ID : Snowflake
  deriving DecidableEq, Repr

/-- The two permission bits the file asks about. -/
inductive Permission where
  | ViewChannel
  | SendMessages
  deriving DecidableEq, Repr

/-- The type `ningen.UnreadIndication`. -/
inductive UnreadIndication where
  | ChannelRead
  | ChannelUnread
  | ChannelMentioned
  | other (n : Nat)
  deriving DecidableEq, Repr

/-! ## Tree nodes -/

/-- The attributes of `tcell.Style` the file sets. -/
structure Style where
  dim : Bool := false
  bold : Bool := false
  underline : Bool := false
  fg : Option Nat := none
  deriving DecidableEq, Repr

/-- The color `tcell.ColorGreen`. -/
def ColorGreen : Nat := 2

/-- The dynamic value held in a node's reference slot. -/
inductive Reference where
  | nil
  | GuildID (id : Snowflake)
  | ChannelID (id : Snowflake)
  | nodeInfo (isOriginal : Bool) (originalParent : Option Nat)
  deriving DecidableEq, Repr

/-- A `tview.TreeNode` object at address `addr`, with the subtree it owns. -/
inductive TreeNode where
  | mk (addr : Nat) (text : GoString) (reference : Reference) (style : Style)
      (expanded : Bool) (children : List TreeNode)
  deriving Repr

namespace TreeNode

/-- Address of the object. -/
def addr : TreeNode → Nat
  | mk a _ _ _ _ _ => a

/-- The method `GetText`. -/
def GetText : TreeNode → GoString
  | mk _ t _ _ _ _ => t

/-- The method `GetReference`. -/
def GetReference : TreeNode → Reference
  | mk _ _ r _ _ _ => r

/-- Text style of the node. -/
def style : TreeNode → Style
  | mk _ _ _ s _ _ => s

/-- The method `IsExpanded`. -/
def IsExpanded : TreeNode → Bool
  | mk _ _ _ _ e _ => e

/-- The method `GetChildren`. -/
def GetChildren : TreeNode → List TreeNode
  | mk _ _ _ _ _ cs => cs

/-- The constructor `tview.NewTreeNode`, allocating at address `a`. -/
def NewTreeNode (a : Nat) (text : GoString) : TreeNode :=
  mk a text Reference.nil {} true []

/-- The method `SetReference`. -/
def SetReference (r : Reference) : TreeNode → TreeNode
  | mk a t _ s e cs => mk a t r s e cs

/-- The method `SetTextStyle`. -/
def SetTextStyle (s : Style) : TreeNode → TreeNode
  | mk a t r _ e cs => mk a t r s e cs

/-- The method `SetColor`: the foreground of the text style. -/
def SetColor (c : Nat) : TreeNode → TreeNode
  | mk a t r s e cs => mk a t r { s with fg := some c } e cs

/-- The method `SetExpanded`. -/
def SetExpanded (b : Bool) : TreeNode → TreeNode
  | mk a t r s _ cs => mk a t r s b cs

/-- Replace the slice of children. -/
def setChildren (cs : List TreeNode) : TreeNode → TreeNode
  | mk a t r s e _ => mk a t r s e cs

/-- The method `AddChild`: append to the slice of children. -/
def AddChild (n c : TreeNode) : TreeNode :=
  match n with
  | mk a t r s e cs => mk a t r s e (cs ++ [c])

mutual
/-- The nodes of a subtree in the order `Walk` visits them when the callback
always asks to go on: depth-first, pre-order. -/
def preorder : TreeNode → List TreeNode
  | mk a t r s e cs => mk a t r s e cs :: preorderList cs
/-- Pre-order listing of a forest. -/
def preorderList : List TreeNode → List TreeNode
  | [] => []
  | c :: cs => preorder c ++ preorderList cs
end

mutual
/-- A write through the pointer `p`: apply `f` to the object at address `p`. -/
def modifyAt (p : Nat) (f : TreeNode → TreeNode) : TreeNode → TreeNode
  | mk a t r s e cs =>
    let n := mk a t r s e (modifyAtList p f cs)
    if a = p then f n else n
/-- The write applied through a forest. -/
def modifyAtList (p : Nat) (f : TreeNode → TreeNode) : List TreeNode → List TreeNode
  | [] => []
  | c :: cs => modifyAt p f c :: modifyAtList p f cs
end

/-- A read through the pointer `p`: the object at address `p` in the subtree. -/
def find? (p : Nat) (n : TreeNode) : Option TreeNode :=
  n.preorder.find? (fun m => m.addr == p)

mutual
/-- The method `Walk`: depth-first, pre-order; the callback receives the node,
its parent (`none` for the start node) and the depth of the node below the
start node, and answers whether the children of the node are visited.  The
walk runs over the subtree as it is when the walk starts. -/
def Walk {σ : Type} (cb : σ → TreeNode → Option TreeNode → Nat → σ × Bool)
    (s : σ) (parent : Option TreeNode) (level : Nat) : TreeNode → σ
  | mk a t r st e cs =>
    let res := cb s (mk a t r st e cs) parent level
    if res.2 then WalkList cb res.1 (some (mk a t r st e cs)) (level + 1) cs else res.1
/-- The walk over the children of one node, first to last. -/
def WalkList {σ : Type} (cb : σ → TreeNode → Option TreeNode → Nat → σ × Bool)
    (s : σ) (parent : Option TreeNode) (level : Nat) : List TreeNode → σ
  | [] => s
  | c :: cs => WalkList cb (Walk cb s parent level c) parent level cs
end

/-- The method `RemoveChild` on the backing array `arr` of the slice of
children, whose length is `len`: the first slot holding the pointer `p` is
dropped by moving the later slots of the slice one place down; the slot past
the new end keeps its old content. -/
def removeChildSlots (arr : List TreeNode) (len : Nat) (p : Nat) : List TreeNode × Nat :=
  match (arr.take len).findIdx? (fun c => c.addr == p) with
  | some j => (arr.take j ++ (arr.drop (j + 1)).take (len - j - 1) ++ arr.drop (len - 1), len - 1)
  | none => (arr, len)

/-- The method `RemoveChild`. -/
def RemoveChild (p : Nat) (n : TreeNode) : TreeNode :=
  let res := removeChildSlots n.GetChildren n.GetChildren.length p
  n.setChildren (res.1.take res.2)

end TreeNode

/-! ## Collaborators -/

/-- The key names of `cfg.Keys.GuildsTree`. -/
structure GuildsTreeKeys where
  CollapseParentNode : String
  MoveToParentNode : String
  SelectPrevious : String
  SelectNext : String
  SelectFirst : String
  SelectLast : String
  SelectCurrent : String
  YankID : String
  deriving DecidableEq, Repr

/-- The fields of `config.Config` the file reads. -/
structure Config where
  MessagesLimit : Int
  AutoExpandFolders : Bool
  Keys : GuildsTreeKeys
  deriving DecidableEq, Repr

/-- The chat-service client `discordState`, the unread tracker and the library
functions the file calls.  A fetch answers `none` when it returns an error. -/
structure Env where
  /-- The call `discordState.HasPermissions`. -/
  HasPermissions : Snowflake → Permission → Bool
  /-- The call `ui.ChannelToString`. -/
  ChannelToString : Channel → GoString
  /-- The call `discordState.ChannelIsUnread`. -/
  ChannelIsUnread : Snowflake → UnreadIndication
  /-- The call `discordState.GuildIsUnread`. -/
  GuildIsUnread : Snowflake → UnreadIndication
  /-- The call `discordState.Cabinet.Guild`. -/
  CabinetGuild : Snowflake → Option Guild
  /-- The call `discordState.Cabinet.Channels`. -/
  CabinetChannels : Snowflake → Option (List Channel)
  /-- The call `discordState.Cabinet.Channel`. -/
  CabinetChannel : Snowflake → Option Channel
  /-- The call `discordState.Messages`, by channel and limit. -/
  Messages : Snowflake → Nat → Option (List Message)
  /-- The call `discordState.PrivateChannels`. -/
  PrivateChannels : Option (List Channel)
  /-- The method `String` of `discord.Color`. -/
  ColorString : Nat → GoString
  /-- The call `strings.ToLower`. -/
  ToLower : GoString → GoString
  /-- The call `sort.Slice` with the given `less`. -/
  sortSlice : (Channel → Channel → Bool) → List Channel → List Channel

/-- What the file does to its collaborators, in the order it does it. -/
inductive Effect where
  | messageInputReset
  | subscribe (guild : Snowflake)
  | fetchChannels (guild : Snowflake)
  | fetchChannel (channel : Snowflake)
  | fetchMessages (channel : Snowflake) (limit : Nat)
  | fetchPrivateChannels
  | fetchGuild (guild : Snowflake)
  | markRead (channel : Snowflake) (message : Snowflake)
  | requestGuildMembers (guild : Snowflake) (messages : List Message)
  | messagesListReset
  | messagesListSetTitle (channel : Channel)
  | drawMessages (messages : List Message)
  | scrollToEnd
  | messageInputSetDisabled (disabled : Bool)
  | focusMessageInput
  | focusTree
  | draw
  | logError (what : String)
  | moveFirst
  | moveLast
  | clipboardWrite (id : Snowflake)
  deriving DecidableEq, Repr

/-- Whether an effect is a channel-list fetch. -/
def Effect.isFetchChannels : Effect → Bool
  | .fetchChannels _ => true
  | _ => false

/-- Whether an effect is a fetch from the chat service. -/
def Effect.isFetch : Effect → Bool
  | .fetchChannels _ => true
  | .fetchChannel _ => true
  | .fetchMessages _ _ => true
  | .fetchPrivateChannels => true
  | .fetchGuild _ => true
  | _ => false

/-! ## Styles -/

/-- The method `unreadStyle`. -/
def unreadStyle (indication : UnreadIndication) : Style :=
  match indication with
  | .ChannelRead => { dim := true }
  | .ChannelMentioned => { underline := true, bold := true }
  | .ChannelUnread => { bold := true }
  | .other _ => {}

/-- The method `getGuildNodeStyle`. -/
def getGuildNodeStyle (env : Env) (guildID : Snowflake) : Style :=
  unreadStyle (env.GuildIsUnread guildID)

/-- The method `getChannelNodeStyle`. -/
def getChannelNodeStyle (env : Env) (channelID : Snowflake) : Style :=
  unreadStyle (env.ChannelIsUnread channelID)

/-! ## Hierarchy builder

The functions below take the object a node pointer refers to together with
the subtree it owns, and the next free address `next`; they give back the
object after the call and the next free address. -/

/-- The node `createGuildNode` builds for a guild. -/
def newGuildNode (env : Env) (a : Nat) (guild : Guild) : TreeNode :=
  ((TreeNode.NewTreeNode a guild.Name).SetReference (Reference.GuildID guild.ID)).SetTextStyle
    (getGuildNodeStyle env guild.ID)

/-- The method `createGuildNode`. -/
def createGuildNode (env : Env) (next : Nat) (n : TreeNode) (guild : Guild) : TreeNode × Nat :=
  (n.AddChild (newGuildNode env next guild), next + 1)

/-- The guard of `createChannelNode`: the channel is neither a direct message
nor a group DM and the viewer may not view it. -/
def channelHidden (env : Env) (channel : Channel) : Bool :=
  decide (channel.Type_ ≠ ChannelType.DirectMessage) && decide (channel.Type_ ≠ ChannelType.GroupDM)
    && !env.HasPermissions channel.ID Permission.ViewChannel

/-- The node `createChannelNode` builds for a channel. -/
def newChannelNode (env : Env) (a : Nat) (channel : Channel) : TreeNode :=
  ((TreeNode.NewTreeNode a (env.ChannelToString channel)).SetReference
    (Reference.ChannelID channel.ID)).SetTextStyle (getChannelNodeStyle env channel.ID)

/-- The method `createChannelNode`, `node` being the object written to. -/
def createChannelNode (env : Env) (next : Nat) (node : TreeNode) (channel : Channel) :
    TreeNode × Nat :=
  if channelHidden env channel then (node, next)
  else (node.AddChild (newChannelNode env next channel), next + 1)

/-- The first loop of `createChannelNodes`. -/
def createTopLevel (env : Env) (next : Nat) (node : TreeNode) : List Channel → TreeNode × Nat
  | [] => (node, next)
  | channel :: rest =>
    if channel.Type_ ≠ ChannelType.GuildCategory ∧ ¬ channel.ParentID.IsValid then
      createTopLevel env (createChannelNode env next node channel).2
        (createChannelNode env next node channel).1 rest
    else createTopLevel env next node rest

/-- The inner loop of the second loop: some channel of the list names `channel` as parent. -/
def hasNested (channels : List Channel) (channel : Channel) : Bool :=
  channels.any (fun nested => nested.ParentID == channel.ID)

/-- The second loop of `createChannelNodes`, labelled `PARENT_CHANNELS`; `all`
is the whole list, searched by the inner loop. -/
def createCategories (env : Env) (all : List Channel) (next : Nat) (node : TreeNode) :
    List Channel → TreeNode × Nat
  | [] => (node, next)
  | channel :: rest =>
    if channel.Type_ = ChannelType.GuildCategory ∧ hasNested all channel then
      createCategories env all (createChannelNode env next node channel).2
        (createChannelNode env next node channel).1 rest
    else createCategories env all next node rest

/-- The callback of the walk in the third loop: it keeps the last node whose
reference is the parent id, and does not descend below a match. -/
def findParentVisit (parentID : Snowflake) (parent : Option Nat) (n : TreeNode)
    (_p : Option TreeNode) (_l : Nat) : Option Nat × Bool :=
  if n.GetReference = Reference.ChannelID parentID then (some n.addr, false) else (parent, true)

/-- The walk of the third loop: the pointer left in `parent`. -/
def findParent (node : TreeNode) (parentID : Snowflake) : Option Nat :=
  TreeNode.Walk (findParentVisit parentID) none none 0 node

/-- The third loop of `createChannelNodes`. -/
def createNested (env : Env) (next : Nat) (node : TreeNode) : List Channel → TreeNode × Nat
  | [] => (node, next)
  | channel :: rest =>
    if channel.ParentID.IsValid then
      match findParent node channel.ParentID with
      | some parent =>
        createNested env (createChannelNode env next node channel).2
          (TreeNode.modifyAt parent (fun m => (createChannelNode env next m channel).1) node) rest
      | none => createNested env next node rest
    else createNested env next node rest

/-- The method `createChannelNodes`. -/
def createChannelNodes (env : Env) (next : Nat) (node : TreeNode) (channels : List Channel) :
    TreeNode × Nat :=
  let top := createTopLevel env next node channels
  let cats := createCategories env channels top.2 top.1 channels
  createNested env cats.2 cats.1 channels

/-- The key `msgID` the direct-message branch sorts by. -/
def msgID (ch : Channel) : Snowflake :=
  if ch.LastMessageID.IsValid then ch.LastMessageID else ch.ID

/-- The loop of the direct-message branch of `onSelected`. -/
def createPrivateChannels (env : Env) (next : Nat) (node : TreeNode) :
    List Channel → TreeNode × Nat
  | [] => (node, next)
  | c :: rest =>
    createPrivateChannels env (createChannelNode env next node c).2
      (createChannelNode env next node c).1 rest

/-! ## Selection -/

/-- What one call of `onSelected` leaves behind: the object `node` pointed to,
the next free address, the two selected ids and the effects on collaborators. -/
structure Selected where
  node : TreeNode
  next : Nat
  selectedChannelID : Snowflake
  selectedGuildID : Snowflake
  effects : List Effect

/-- The argument `hasPerm` that `onSelected` passes to `SetDisabled`. -/
def sendDisabled (env : Env) (channel : Channel) : Bool :=
  decide (channel.Type_ ≠ ChannelType.DirectMessage) && decide (channel.Type_ ≠ ChannelType.GroupDM)
    && !env.HasPermissions channel.ID Permission.SendMessages

/-- The method `onSelected`, on the object `node` points to.  `selC` and `selG`
are `selectedChannelID` and `selectedGuildID` before the call. -/
def onSelected (env : Env) (cfg : Config) (next : Nat) (selC selG : Snowflake)
    (node : TreeNode) : Selected :=
  if node.GetChildren.length ≠ 0 then
    { node := node.SetExpanded (!node.IsExpanded), next := next, selectedChannelID := selC,
      selectedGuildID := selG, effects := [Effect.messageInputReset] }
  else
    match node.GetReference with
    | Reference.GuildID ref =>
      match env.CabinetChannels ref with
      | none =>
        { node := node, next := next, selectedChannelID := selC, selectedGuildID := selG,
          effects := [Effect.messageInputReset, Effect.subscribe ref, Effect.fetchChannels ref,
            Effect.logError "failed to get channels"] }
      | some channels =>
        let sorted := env.sortSlice (fun a b => decide (a.Position < b.Position)) channels
        let res := createChannelNodes env next node sorted
        { node := res.1, next := res.2, selectedChannelID := selC, selectedGuildID := selG,
          effects := [Effect.messageInputReset, Effect.subscribe ref, Effect.fetchChannels ref] }
    | Reference.ChannelID ref =>
      match env.CabinetChannel ref with
      | none =>
        { node := node, next := next, selectedChannelID := selC, selectedGuildID := selG,
          effects := [Effect.messageInputReset, Effect.fetchChannel ref,
            Effect.logError "failed to get channel"] }
      | some channel =>
        let limit := (cfg.MessagesLimit % 2 ^ 64).toNat
        match env.Messages channel.ID limit with
        | none =>
          { node := node, next := next, selectedChannelID := selC, selectedGuildID := selG,
            effects := [Effect.messageInputReset, Effect.fetchChannel ref,
              Effect.markRead channel.ID channel.LastMessageID,
              Effect.fetchMessages channel.ID limit, Effect.logError "failed to get messages"] }
        | some messages =>
          { node := node, next := next, selectedChannelID := channel.ID,
            selectedGuildID := channel.GuildID,
            effects := [Effect.messageInputReset, Effect.fetchChannel ref,
              Effect.markRead channel.ID channel.LastMessageID,
              Effect.fetchMessages channel.ID limit]
              ++ (if channel.GuildID.IsValid then
                    [Effect.requestGuildMembers channel.GuildID messages] else [])
              ++ [Effect.messagesListReset, Effect.messagesListSetTitle channel,
                  Effect.drawMessages messages, Effect.scrollToEnd,
                  Effect.messageInputSetDisabled (sendDisabled env channel),
                  Effect.focusMessageInput] }
    | Reference.nil =>
      match env.PrivateChannels with
      | none =>
        { node := node, next := next, selectedChannelID := selC, selectedGuildID := selG,
          effects := [Effect.messageInputReset, Effect.fetchPrivateChannels,
            Effect.logError "failed to get private channels"] }
      | some channels =>
        let sorted := env.sortSlice (fun a b => decide (msgID a % 2 ^ 64 > msgID b % 2 ^ 64)) channels
        let res := createPrivateChannels env next node sorted
        { node := res.1, next := res.2, selectedChannelID := selC, selectedGuildID := selG,
          effects := [Effect.messageInputReset, Effect.fetchPrivateChannels] }
    | Reference.nodeInfo _ _ =>
      { node := node, next := next, selectedChannelID := selC, selectedGuildID := selG,
        effects := [Effect.messageInputReset] }

/-! ## The tree widget -/

/-- The struct `guildsTree`.  `root`, `currentNode` and `title` are the fields
of the embedded `tview.TreeView` the file reads and writes.  `originalRoot` and
`tempRoot` stand for the pointer (the address of the node) and for the object
graph beneath it; `resultNode` and the entries of `filteredNodes` are pointers.
`next` is the next free address and `trace` lists the effects so far.  `level`
gives, for the node at an address, the level field `GetLevel` returns: the
tree view writes it when it draws (the input `draw`), the file only reads it,
and it is 0 for every node in the state `newGuildsTree` builds. -/
structure guildsTree where
  cfg : Config
  root : Nat
  currentNode : Option Nat
  title : String
  selectedChannelID : Snowflake
  selectedGuildID : Snowflake
  filterQuery : GoString
  filteredNodes : List Nat
  isFiltering : Bool
  originalRoot : TreeNode
  tempRoot : TreeNode
  resultNode : Nat
  next : Nat
  trace : List Effect
  level : Nat → Nat

namespace guildsTree

/-- A read through a node pointer. -/
def deref (gt : guildsTree) (p : Nat) : Option TreeNode :=
  match gt.tempRoot.find? p with
  | some n => some n
  | none => gt.originalRoot.find? p

/-- A write through a node pointer. -/
def update (gt : guildsTree) (p : Nat) (f : TreeNode → TreeNode) : guildsTree :=
  { gt with originalRoot := gt.originalRoot.modifyAt p f, tempRoot := gt.tempRoot.modifyAt p f }

/-- Append effects to the trace. -/
def emit (gt : guildsTree) (es : List Effect) : guildsTree :=
  { gt with trace := gt.trace ++ es }

/-- The children of `resultNode`. -/
def resultChildren (gt : guildsTree) : List TreeNode :=
  match gt.deref gt.resultNode with
  | some n => n.GetChildren
  | none => []

end guildsTree

/-- The function `newGuildsTree`. -/
def newGuildsTree (cfg : Config) : guildsTree :=
  let originalRoot := (TreeNode.NewTreeNode 0 (goString "Servers")).SetReference
    (Reference.nodeInfo true none)
  let resultNode := (TreeNode.NewTreeNode 1 (goString "Current Results")).SetReference
    (Reference.nodeInfo false none)
  let tempRoot := ((TreeNode.NewTreeNode 2 (goString "Filter Root")).SetReference
    (Reference.nodeInfo false none)).AddChild resultNode
  { cfg := cfg, root := originalRoot.addr, currentNode := none, title := "Guilds",
    selectedChannelID := 0, selectedGuildID := 0, filterQuery := [], filteredNodes := [],
    isFiltering := false, originalRoot := originalRoot, tempRoot := tempRoot,
    resultNode := resultNode.addr, next := 3, trace := [], level := fun _ => 0 }

/-! ## Filter index -/

/-- One round of the loop of `clearResultNode`: the range reads slot `i` of the
backing array it started on and `RemoveChild` is called with what it reads. -/
def clearStep (st : List TreeNode × Nat) (i : Nat) : List TreeNode × Nat :=
  match st.1.get? i with
  | some child => TreeNode.removeChildSlots st.1 st.2 child.addr
  | none => st

/-- The loop of `clearResultNode` on the slice of children `cs`: the children left. -/
def clearChildren (cs : List TreeNode) : List TreeNode :=
  let res := (List.range cs.length).foldl clearStep (cs, cs.length)
  res.1.take res.2

/-- The method `clearResultNode`. -/
def clearResultNode (gt : guildsTree) : guildsTree :=
  { gt.update gt.resultNode (fun n => n.setChildren (clearChildren n.GetChildren)) with
    filteredNodes := [] }

/-- The clone `applyFilter` makes of a matching node. -/
def cloneNode (a : Nat) (node : TreeNode) : TreeNode :=
  ((TreeNode.NewTreeNode a node.GetText).SetReference node.GetReference).SetColor ColorGreen

/-- The callback of the walk in `applyFilter`. -/
def applyFilterVisit (env : Env) (query : GoString) (gt : guildsTree) (node : TreeNode)
    (_p : Option TreeNode) (_l : Nat) : guildsTree × Bool :=
  match node.GetReference with
  | Reference.nodeInfo isOriginal _ =>
    if !isOriginal then (gt, true)
    else
      match node.GetReference with
      | Reference.ChannelID _ =>
        if stringsContains (env.ToLower node.GetText) query then
          ({ gt.update gt.resultNode (fun n => n.AddChild (cloneNode gt.next node)) with
              filteredNodes := gt.filteredNodes ++ [gt.next], next := gt.next + 1 }, true)
        else (gt, true)
      | _ => (gt, true)
  | _ => (gt, true)

/-- The method `applyFilter`. -/
def applyFilter (env : Env) (gt0 : guildsTree) : guildsTree :=
  let gt := clearResultNode gt0
  if gt.filterQuery = [] then gt
  else
    let query := env.ToLower gt.filterQuery
    let gt1 := TreeNode.Walk (applyFilterVisit env query) gt none 0 gt.originalRoot
    let gt2 :=
      match gt1.filteredNodes with
      | first :: _ =>
        { gt1 with currentNode := some first }.update gt1.resultNode (fun n => n.SetExpanded true)
      | [] => gt1
    gt2.emit [Effect.focusTree, Effect.draw]

/-! ## Mode controller -/

/-- The method `enterFilterMode`. -/
def enterFilterMode (gt : guildsTree) : guildsTree :=
  let gt1 := { gt with isFiltering := true, filterQuery := [], root := gt.tempRoot.addr }
  let gt2 := clearResultNode gt1
  { gt2 with title := "Filtering (ESC to cancel)" }.emit [Effect.focusTree, Effect.draw]

/-- The method `clearFilter`. -/
def clearFilter (gt : guildsTree) : guildsTree :=
  let gt1 := { gt with isFiltering := false, filterQuery := [], root := gt.originalRoot.addr }
  let gt2 := clearResultNode gt1
  { gt2 with title := "" }.emit [Effect.focusTree, Effect.draw]

/-- The method `toggleFilterMode`. -/
def toggleFilterMode (gt : guildsTree) : guildsTree :=
  if gt.isFiltering then clearFilter gt else enterFilterMode gt

/-! ## Key input -/

/-- The values of `tcell.Key` the file tells apart. -/
inductive Key where
  | KeyCtrlF
  | KeyEnter
  | KeyEscape
  | KeyBackspace
  | KeyBackspace2
  | KeyUp
  | KeyDown
  | KeyPgUp
  | KeyPgDn
  | KeyRune
  | other (code : Nat)
  deriving DecidableEq, Repr

/-- What the file reads of a `tcell.EventKey`: `Key()`, `Rune()` and `Name()`. -/
structure EventKey where
  Key : Key
  Rune : Int
  Name : String
  deriving DecidableEq, Repr

/-- The event `tcell.NewEventKey(tcell.KeyRune, 'K', tcell.ModNone)`. -/
def eventRuneK : EventKey := { Key := Key.KeyRune, Rune := 75, Name := "Rune[K]" }

/-- The event `tcell.NewEventKey(tcell.KeyUp, 0, tcell.ModNone)`. -/
def eventUp : EventKey := { Key := Key.KeyUp, Rune := 0, Name := "Up" }

/-- The event `tcell.NewEventKey(tcell.KeyDown, 0, tcell.ModNone)`. -/
def eventDown : EventKey := { Key := Key.KeyDown, Rune := 0, Name := "Down" }

/-- The event `tcell.NewEventKey(tcell.KeyEnter, 0, tcell.ModNone)`. -/
def eventEnter : EventKey := { Key := Key.KeyEnter, Rune := 0, Name := "Enter" }

/-- The method `onSelected` called with the pointer `p`.  A node attached to
neither root is outside the tracked object graph: only the reset of the
composer is recorded for it. -/
def onSelectedAt (env : Env) (gt : guildsTree) (p : Nat) : guildsTree :=
  match gt.deref p with
  | none => gt.emit [Effect.messageInputReset]
  | some node =>
    let r := onSelected env gt.cfg gt.next gt.selectedChannelID gt.selectedGuildID node
    { gt.update p (fun m =>
        (onSelected env gt.cfg gt.next gt.selectedChannelID gt.selectedGuildID m).node) with
      next := r.next, selectedChannelID := r.selectedChannelID,
      selectedGuildID := r.selectedGuildID, trace := gt.trace ++ r.effects }

/-- The method `enterSelectedChannel`. -/
def enterSelectedChannel (env : Env) (gt : guildsTree) : guildsTree :=
  match gt.currentNode with
  | some currentNode => onSelectedAt env gt currentNode
  | none => gt

/-- The callback of the walk in `collapseParentNode`; `none` is the state after
a nil pointer was dereferenced.  `parent.GetLevel()` is the level the tree view
stored for the parent when it last drew. -/
def collapseVisit (node : Option Nat) (s : Option guildsTree) (n : TreeNode)
    (parent : Option TreeNode) (_l : Nat) : Option guildsTree × Bool :=
  match s with
  | none => (none, false)
  | some gt =>
    if some n.addr = node then
      match parent with
      | none => (none, false)
      | some par =>
        if gt.level par.addr ≠ 0 then
          (some { gt.update par.addr (fun m => m.SetExpanded false) with
                  currentNode := some par.addr }, false)
        else (some gt, true)
    else (some gt, true)

/-- The method `collapseParentNode`; `none` when it dereferences a nil pointer. -/
def collapseParentNode (gt : guildsTree) (node : Option Nat) : Option guildsTree :=
  match gt.deref gt.root with
  | some root => TreeNode.Walk (collapseVisit node) (some gt) none 0 root
  | none => some gt

/-- The method `yankID`. -/
def yankID (gt : guildsTree) : guildsTree :=
  match gt.currentNode with
  | none => gt
  | some p =>
    match gt.deref p with
    | some node =>
      match node.GetReference with
      | Reference.GuildID id => gt.emit [Effect.clipboardWrite id]
      | Reference.ChannelID id => gt.emit [Effect.clipboardWrite id]
      | _ => gt
    | none => gt

/-- The filtering part of `onInputCapture`: the state and the returned event
when the branch returns, `none` when control falls through to the bindings. -/
def filterInput (env : Env) (gt : guildsTree) (event : EventKey) :
    Option (guildsTree × Option EventKey) :=
  match event.Key with
  | Key.KeyEnter => some (clearFilter (enterSelectedChannel env gt), none)
  | Key.KeyEscape => some (clearFilter gt, none)
  | Key.KeyBackspace | Key.KeyBackspace2 =>
    if gt.filterQuery.length > 0 then
      some (applyFilter env { gt with filterQuery := gt.filterQuery.take (gt.filterQuery.length - 1) },
        none)
    else some (clearFilter gt, none)
  | Key.KeyUp | Key.KeyDown | Key.KeyPgUp | Key.KeyPgDn => some (gt, some event)
  | _ =>
    if event.Rune ≠ 0 ∧ event.Rune ≥ 32 then
      some (applyFilter env { gt with filterQuery := gt.filterQuery ++ encodeRune event.Rune }, none)
    else none

/-- The switch on `event.Name()` at the end of `onInputCapture`; `none` when a
nil pointer is dereferenced. -/
def bindings (gt : guildsTree) (event : EventKey) : Option (guildsTree × Option EventKey) :=
  let keys := gt.cfg.Keys
  if event.Name = keys.CollapseParentNode then
    (collapseParentNode gt gt.currentNode).map (fun g => (g, none))
  else if event.Name = keys.MoveToParentNode then some (gt, some eventRuneK)
  else if event.Name = keys.SelectPrevious then some (gt, some eventUp)
  else if event.Name = keys.SelectNext then some (gt, some eventDown)
  else if event.Name = keys.SelectFirst then some (gt.emit [Effect.moveFirst], none)
  else if event.Name = keys.SelectLast then some (gt.emit [Effect.moveLast], none)
  else if event.Name = keys.SelectCurrent then some (gt, some eventEnter)
  else if event.Name = keys.YankID then some (yankID gt, none)
  else some (gt, none)

/-- The method `onInputCapture`: the state after the call and the event it
returns (`none` for nil); the outer `none` when a nil pointer is dereferenced. -/
def onInputCapture (env : Env) (gt : guildsTree) (event : EventKey) :
    Option (guildsTree × Option EventKey) :=
  if event.Key = Key.KeyCtrlF then some (toggleFilterMode gt, none)
  else if gt.isFiltering then
    match filterInput env gt event with
    | some res => some res
    | none => bindings gt event
  else bindings gt event

/-! ## Folders -/

/-- The text `createFolderNode` gives a folder node. -/
def folderName (env : Env) (folder : GuildFolder) : GoString :=
  if folder.Name ≠ [] then
    goString "[" ++ env.ColorString folder.Color ++ goString "]" ++ folder.Name ++ goString "[-]"
  else goString "Folder"

/-- The loop of `createFolderNode`; `folderNode` is the pointer to the folder node. -/
def createFolderGuilds (env : Env) (folderNode : Nat) (gt : guildsTree) :
    List Snowflake → guildsTree
  | [] => gt
  | gID :: rest =>
    match env.CabinetGuild gID with
    | none =>
      createFolderGuilds env folderNode
        (gt.emit [Effect.fetchGuild gID, Effect.logError "failed to get guild from state"]) rest
    | some guild =>
      createFolderGuilds env folderNode
        ({ gt.update folderNode (fun n => (createGuildNode env gt.next n guild).1) with
            next := gt.next + 1 }.emit [Effect.fetchGuild gID]) rest

/-- The method `createFolderNode`. -/
def createFolderNode (env : Env) (gt : guildsTree) (folder : GuildFolder) : guildsTree :=
  let folderNode := (TreeNode.NewTreeNode gt.next (folderName env folder)).SetExpanded
    gt.cfg.AutoExpandFolders
  let gt1 := { gt.update gt.root (fun n => n.AddChild folderNode) with next := gt.next + 1 }
  createFolderGuilds env folderNode.addr gt1 folder.GuildIDs

/-! ## Runs -/

/-- What can happen to the widget: a key event reaches `onInputCapture`, the
tree view moves its cursor by itself, the tree view calls `onSelected` on a
node, a folder is added, or the tree view draws and stores the levels
`level` in the nodes. -/
inductive Input where
  | key (event : EventKey)
  | cursor (node : Option Nat)
  | selected (node : Nat)
  | folder (f : GuildFolder)
  | draw (level : Nat → Nat)

/-- One step of the widget; `none` when a nil pointer is dereferenced. -/
def step (env : Env) (gt : guildsTree) : Input → Option guildsTree
  | Input.key event => (onInputCapture env gt event).map (fun res => res.1)
  | Input.cursor node => some { gt with currentNode := node }
  | Input.selected node => some (onSelectedAt env gt node)
  | Input.folder f => some (createFolderNode env gt f)
  | Input.draw level => some { gt with level := level }

/-- A run of the widget over a sequence of inputs. -/
def run (env : Env) (gt : guildsTree) : List Input → Option guildsTree
  | [] => some gt
  | i :: rest =>
    match step env gt i with
    | some gt1 => run env gt1 rest
    | none => none

/-- An environment for examples: every channel is in view, lookups fail, the
lower-casing is that of ASCII, the sort is the stable insertion sort. -/
def demoEnv : Env where
  HasPermissions := fun _ _ => true
  ChannelToString := fun c => c.Name
  ChannelIsUnread := fun _ => UnreadIndication.ChannelRead
  GuildIsUnread := fun _ => UnreadIndication.ChannelRead
  CabinetGuild := fun _ => none
  CabinetChannels := fun _ => none
  CabinetChannel := fun _ => none
  Messages := fun _ _ => none
  PrivateChannels := none
  ColorString := fun _ => []
  ToLower := asciiToLower
  sortSlice := fun less l => l.insertionSort (fun a b => less b a = false)

/-- A configuration for examples. -/
def demoConfig : Config where
  MessagesLimit := 50
  AutoExpandFolders := true
  Keys := { CollapseParentNode := "Rune[-]", MoveToParentNode := "Rune[p]",
            SelectPrevious := "Rune[k]", SelectNext := "Rune[j]", SelectFirst := "Rune[g]",
            SelectLast := "Rune[G]", SelectCurrent := "Enter", YankID := "Rune[i]" }

/-! ## Example states -/

/-- A channel node of the original hierarchy, for examples. -/
def channelNode (a : Nat) (id : Snowflake) (name : String) : TreeNode :=
  TreeNode.mk a (goString name) (Reference.ChannelID id) {} true []

/-- The original hierarchy of the substring example: a guild with the channel
nodes "general", "General-Voice" and "random". -/
def demoHierarchy : TreeNode :=
  TreeNode.mk 0 (goString "Servers") (Reference.nodeInfo true none) {} true
    [TreeNode.mk 3 (goString "G") (Reference.GuildID 100) {} true
      [channelNode 4 11 "general", channelNode 5 12 "General-Voice", channelNode 6 13 "random"]]

/-- The filtering state over `demoHierarchy` with the query `q` typed. -/
def demoFiltering (q : String) : guildsTree :=
  { enterFilterMode { newGuildsTree demoConfig with originalRoot := demoHierarchy, next := 7 } with
    filterQuery := goString q }

/-- A filtering state whose `resultNode` holds the three clones at addresses 7, 8 and 9. -/
def demoThreeResults (q : GoString) : guildsTree :=
  { (demoFiltering "").update 1 (fun n => n.setChildren
      [cloneNode 7 (channelNode 4 11 "general"), cloneNode 8 (channelNode 5 12 "General-Voice"),
       cloneNode 9 (channelNode 6 13 "random")]) with
    filteredNodes := [7, 8, 9], next := 10, filterQuery := q }

/-- The key event of a typed character. -/
def runeEvent (r : Int) : EventKey := { Key := Key.KeyRune, Rune := r, Name := "Rune" }

/-- The Backspace key event. -/
def backspaceEvent : EventKey := { Key := Key.KeyBackspace2, Rune := 0, Name := "Backspace2" }

/-- The Ctrl-F key event. -/
def ctrlFEvent : EventKey := { Key := Key.KeyCtrlF, Rune := 6, Name := "Ctrl+F" }

/-- The Enter key event. -/
def enterEvent : EventKey := { Key := Key.KeyEnter, Rune := 13, Name := "Enter" }

/-- The Escape key event. -/
def escapeEvent : EventKey := { Key := Key.KeyEscape, Rune := 27, Name := "Esc" }

/-- A run of key events: Ctrl-F, the characters g and e, Enter, Ctrl-F, Backspace. -/
def demoInputs : List Input :=
  [Input.key ctrlFEvent, Input.key (runeEvent 103), Input.key (runeEvent 101),
   Input.key enterEvent, Input.key ctrlFEvent, Input.key backspaceEvent]

/-- A channel record, for examples. -/
def demoChannel (id parent : Snowflake) (kind : ChannelType) (name : String) : Channel :=
  { ID := id, GuildID := 100, ParentID := parent, LastMessageID := 0, Type_ := kind,
    Position := 0, Name := goString name }

/-- A guild node without children, for examples. -/
def demoGuildNode : TreeNode :=
  TreeNode.mk 3 (goString "G") (Reference.GuildID 100) {} true []

/-- The environment `demoEnv` with the channel list `channels` for every guild
and with the view permission `view` on every channel. -/
def demoEnvChannels (channels : List Channel) (view : Bool) : Env :=
  { demoEnv with CabinetChannels := fun _ => some channels, HasPermissions := fun _ _ => view }

/-- The environment `demoEnv` in which every channel lookup and every message
fetch succeeds. -/
def demoEnvOnline : Env :=
  { demoEnv with
    CabinetChannel := fun id => some (demoChannel id 0 ChannelType.GuildText "general"),
    Messages := fun _ _ => some [{ ID := 500 }] }

/-- Two calls of `onSelected` in a row on the object `node`: the results of
the first and of the second call. -/
def onSelectedTwice (env : Env) (cfg : Config) (next : Nat) (selC selG : Snowflake)
    (node : TreeNode) : Selected × Selected :=
  let r1 := onSelected env cfg next selC selG node
  (r1, onSelected env cfg r1.next r1.selectedChannelID r1.selectedGuildID r1.node)

/-- The channel-list fetches of two calls in a row. -/
def fetchesOfTwice (r : Selected × Selected) : Nat :=
  (r.1.effects ++ r.2.effects).countP Effect.isFetchChannels

/-- A channel node of the original hierarchy that has a child. -/
def demoParentNode : TreeNode :=
  TreeNode.mk 4 (goString "lobby") (Reference.ChannelID 11) {} true [channelNode 5 12 "thread"]

/-- The channel list of the end-to-end scenario: catA (category), chA1 (parent
catA), chTop (no parent). -/
def demoGuildChannels : List Channel :=
  [demoChannel 1 0 ChannelType.GuildCategory "catA", demoChannel 2 1 ChannelType.GuildText "chA1",
   demoChannel 3 0 ChannelType.GuildText "chTop"]

/-- The state `newGuildsTree` builds with the example guild node, not yet
expanded, under `originalRoot`. -/
def demoGuildState : guildsTree :=
  { newGuildsTree demoConfig with
    originalRoot := TreeNode.mk 0 (goString "Servers") (Reference.nodeInfo true none) {} true
      [demoGuildNode],
    next := 4 }

/-- A configuration whose bindings are keys that are not printable. -/
def demoConfigKeys : Config where
  MessagesLimit := 50
  AutoExpandFolders := true
  Keys := { CollapseParentNode := "Left", MoveToParentNode := "Right",
            SelectPrevious := "Ctrl+P", SelectNext := "Ctrl+N", SelectFirst := "Home",
            SelectLast := "End", SelectCurrent := "Tab", YankID := "Ctrl+Y" }

/-- A key event that is no rune, with the name `name`. -/
def namedEvent (code : Nat) (name : String) : EventKey :=
  { Key := Key.other code, Rune := 0, Name := name }

/-- The filtering state of `demoThreeResults` under `demoConfigKeys`, with the
first result as current node, before the tree view drew the results: every
node still has the level 0 it was created with. -/
def demoFilteringStale : guildsTree :=
  { demoThreeResults [] with cfg := demoConfigKeys, currentNode := some 7 }

/-- The state `demoFilteringStale` after the tree view drew it: the display
root `tempRoot` keeps level 0, the result node (address 1) is at level 1, the
three results (addresses 7, 8, 9) are at level 2. -/
def demoFilteringKeys : guildsTree :=
  { demoFilteringStale with
    level := fun a => if a = 1 then 1 else if a = 7 ∨ a = 8 ∨ a = 9 then 2 else 0 }

/-- A folder without guilds. -/
def demoFolder : GuildFolder := { Name := goString "work", Color := 0, GuildIDs := [] }

/-- The environment `demoEnv` with one private channel. -/
def demoEnvPrivate : Env :=
  { demoEnv with
    PrivateChannels := some [demoChannel 7 0 ChannelType.DirectMessage "alice"] }

/-- Three private channels: one never written to, two with a last message. -/
def demoPrivateChannels : List Channel :=
  [{ ID := 60, GuildID := 0, ParentID := 0, LastMessageID := 0,
     Type_ := ChannelType.DirectMessage, Position := 0, Name := goString "new" },
   { ID := 5, GuildID := 0, ParentID := 0, LastMessageID := 90,
     Type_ := ChannelType.GroupDM, Position := 0, Name := goString "group" },
   { ID := 6, GuildID := 0, ParentID := 0, LastMessageID := 40,
     Type_ := ChannelType.DirectMessage, Position := 0, Name := goString "old" }]

/-- The environment `demoEnv` with the private channels `demoPrivateChannels`. -/
def demoEnvDirect : Env :=
  { demoEnv with PrivateChannels := some demoPrivateChannels }

/-- The node of the direct messages: no reference and no child yet. -/
def demoDirectNode : TreeNode :=
  TreeNode.mk 3 (goString "Direct Messages") Reference.nil {} true []

/-! ## Stated properties -/

/-- The mode invariant: `originalRoot` and `tempRoot` are different nodes, the
display root is one of them, and it is `tempRoot` exactly when `isFiltering`. -/
def ModeInvariant (gt : guildsTree) : Prop :=
  gt.originalRoot.addr ≠ gt.tempRoot.addr ∧
    (gt.root = gt.originalRoot.addr ∨ gt.root = gt.tempRoot.addr) ∧
    (gt.root = gt.tempRoot.addr ↔ gt.isFiltering = true)

/-- The second state has the roots, the display root and the mode of the first. -/
def SameMode (a b : guildsTree) : Prop :=
  b.originalRoot.addr = a.originalRoot.addr ∧ b.tempRoot.addr = a.tempRoot.addr ∧
    b.root = a.root ∧ b.isFiltering = a.isFiltering

/-- The operations of the filter overlay. -/
inductive FilterOp where
  | enterFilterMode
  | applyFilter (query : GoString)
  | clearResultNode
  | clearFilter
  deriving DecidableEq, Repr

/-- One operation of the filter overlay; `applyFilter` runs on the query given. -/
def FilterOp.apply (env : Env) (gt : guildsTree) : FilterOp → guildsTree
  | FilterOp.enterFilterMode => Discordo.enterFilterMode gt
  | FilterOp.applyFilter query => Discordo.applyFilter env { gt with filterQuery := query }
  | FilterOp.clearResultNode => Discordo.clearResultNode gt
  | FilterOp.clearFilter => Discordo.clearFilter gt

/-- A sequence of operations of the filter overlay, first to last. -/
def runOps (env : Env) (gt : guildsTree) (ops : List FilterOp) : guildsTree :=
  ops.foldl (FilterOp.apply env) gt

/-- No node of the subtree is at address `p`. -/
def TreeNode.Avoids (t : TreeNode) (p : Nat) : Prop :=
  ∀ m ∈ t.preorder, m.addr ≠ p

/-- What a node shows of itself: its text and its reference. -/
def TreeNode.label (m : TreeNode) : GoString × Reference :=
  (m.GetText, m.GetReference)

/-- The object itself without the subtree it owns: address, text and reference. -/
def TreeNode.shallow (m : TreeNode) : Nat × GoString × Reference :=
  (m.addr, m.GetText, m.GetReference)

/-- The text and the reference of the node `createChannelNode` builds for a channel. -/
def channelLabel (env : Env) (c : Channel) : GoString × Reference :=
  (env.ChannelToString c, Reference.ChannelID c.ID)

mutual
/-- Every node below the given one satisfies `Q`. -/
def TreeNode.Below (Q : TreeNode → Prop) : TreeNode → Prop
  | TreeNode.mk _ _ _ _ _ cs => TreeNode.BelowList Q cs
/-- Every node of the forest satisfies `Q`. -/
def TreeNode.BelowList (Q : TreeNode → Prop) : List TreeNode → Prop
  | [] => True
  | c :: cs => Q c ∧ TreeNode.Below Q c ∧ TreeNode.BelowList Q cs
end

/-- The conditions under which the three loops of `createChannelNodes` pass a
channel of the list `all` to `createChannelNode`. -/
def Attachable (all : List Channel) (c : Channel) : Prop :=
  (c.Type_ ≠ ChannelType.GuildCategory ∧ c.ParentID.IsValid = false) ∨
    (c.Type_ = ChannelType.GuildCategory ∧ hasNested all c = true) ∨ c.ParentID.IsValid = true

/-- The node was built by `createChannelNode` for a channel of the list `all`
that passes the guard and that one of the loops hands over. -/
def BuiltFrom (env : Env) (all : List Channel) (m : TreeNode) : Prop :=
  ∃ c ∈ all, m.label = channelLabel env c ∧ channelHidden env c = false ∧ Attachable all c

/-- The nodes `createChannelNode` builds for the channels of a list, one
after the other from the address `a` on. -/
def newLeaves (env : Env) (a : Nat) : List Channel → List TreeNode
  | [] => []
  | c :: cs => newChannelNode env a c :: newLeaves env (a + 1) cs

/-- The channels the first loop of `createChannelNodes` hands over: not a
category and without a valid parent id. -/
def topLevelChannels (channels : List Channel) : List Channel :=
  channels.filter (fun c =>
    decide (c.Type_ ≠ ChannelType.GuildCategory ∧ ¬ c.ParentID.IsValid = true))

/-- The channels the second loop of `createChannelNodes` hands over: the
categories that a channel of the list names as its parent. -/
def namedCategories (channels : List Channel) : List Channel :=
  channels.filter (fun c =>
    decide (c.Type_ = ChannelType.GuildCategory ∧ hasNested channels c = true))

/-- The channels of the list whose parent id is valid and is the channel id
the reference `r` holds. -/
def channelsUnder (channels : List Channel) (r : Reference) : List Channel :=
  channels.filter (fun ch =>
    decide (ch.ParentID.IsValid = true ∧ Reference.ChannelID ch.ParentID = r))

/-- Some node of the subtree holds the reference `r` and has a child that
shows the text and the reference `l`. -/
def TreeNode.HasChildUnder (t : TreeNode) (r : Reference) (l : GoString × Reference) : Prop :=
  ∃ m ∈ t.preorder, m.GetReference = r ∧ l ∈ m.GetChildren.map TreeNode.label

/-- What the third loop of `createChannelNodes` keeps true of a node below the
start node, once the channels `done` are through: its address lies between
`lo` and the next free address `nx`, its reference is the one `refOf` records
for the address, and its children show, in the order of the list, channels of
`done` whose valid parent id is the reference of the node. -/
def NestedNode (env : Env) (lo nx : Nat) (refOf : Nat → Reference) (done : List Channel)
    (m : TreeNode) : Prop :=
  lo ≤ m.addr ∧ m.addr < nx ∧ m.GetReference = refOf m.addr ∧
    (m.GetChildren.map TreeNode.label).Sublist
      ((channelsUnder done m.GetReference).map (channelLabel env))

/-- What the third loop of `createChannelNodes` keeps true of the tree below
the start node `t`, whose reference is `rootRef`: the children of `t` are
still the nodes `kids` the first two loops made, every node below satisfies
`NestedNode`, and every channel of
`done` with a valid parent id that a child of `t` holds has been attached below
a node holding that parent id. -/
def NestedTree (env : Env) (lo nx : Nat) (rootRef : Reference)
    (kids : List (Nat × GoString × Reference)) (done : List Channel) (t : TreeNode) : Prop :=
  t.addr < lo ∧ lo ≤ nx ∧ t.GetReference = rootRef ∧
    t.GetChildren.map TreeNode.shallow = kids ∧
    (∃ refOf, TreeNode.Below (NestedNode env lo nx refOf done) t) ∧
    (∀ ch ∈ done, ch.ParentID.IsValid = true →
      (∃ k ∈ kids, k.2.2 = Reference.ChannelID ch.ParentID) →
      t.HasChildUnder (Reference.ChannelID ch.ParentID) (channelLabel env ch))

/-- The fetch `onSelected` makes for the reference kind of the node fails: the
channel list of a guild, the channel lookup or the message list of a channel,
the private-channel list for an absent reference. -/
def fetchFails (env : Env) (cfg : Config) (node : TreeNode) : Prop :=
  match node.GetReference with
  | Reference.GuildID g => env.CabinetChannels g = none
  | Reference.ChannelID c =>
    env.CabinetChannel c = none ∨
      ∃ ch, env.CabinetChannel c = some ch ∧
        env.Messages ch.ID (cfg.MessagesLimit % 2 ^ 64).toNat = none
  | Reference.nil => env.PrivateChannels = none
  | Reference.nodeInfo _ _ => False

/-- The pointer `p` refers to the object `node` and to nothing else in the
object graph of the widget. -/
def guildsTree.PointsTo (gt : guildsTree) (p : Nat) (node : TreeNode) : Prop :=
  gt.deref p = some node ∧
    ∀ m ∈ gt.originalRoot.preorder ++ gt.tempRoot.preorder, m.addr = p → m = node

/-- The activity key of a private channel as the specification words it: the
id of its last message when that id is valid, its own channel id otherwise
(ids are unsigned 64-bit numbers). -/
def activityKey (ch : Channel) : Nat :=
  if ch.LastMessageID.IsValid = true then ch.LastMessageID % 2 ^ 64 else ch.ID % 2 ^ 64

/-- The tree `t2` is the tree `t1` with the one node `leaf` more, somewhere
below or at the top node, which keeps its address, text and reference. -/
def TreeNode.GrowsBy (leaf t1 t2 : TreeNode) : Prop :=
  (t2.preorder.map TreeNode.shallow).Perm (t1.preorder.map TreeNode.shallow ++ [leaf.shallow]) ∧
    t2.shallow = t1.shallow

/-- The addresses of a subtree are pairwise distinct and below the next free
address `nx`, and the references below the top node are pairwise distinct
channel ids taken from `used`. -/
def AttachedOnce (nx : Nat) (used : List Snowflake) (t : TreeNode) : Prop :=
  (t.preorder.map TreeNode.addr).Nodup ∧ (∀ a ∈ t.preorder.map TreeNode.addr, a < nx) ∧
    ((TreeNode.preorderList t.GetChildren).map TreeNode.GetReference).Nodup ∧
    (∀ r ∈ (TreeNode.preorderList t.GetChildren).map TreeNode.GetReference,
      ∃ i ∈ used, r = Reference.ChannelID i)

/-- The categories of the list that at least one channel of the list names as
its parent, as the specification words it: some channel of the list has the id
of the category as parent id. -/
def parentCategories (channels : List Channel) : List Channel :=
  channels.filter (fun c =>
    decide (c.Type_ = ChannelType.GuildCategory ∧ ∃ nested ∈ channels, nested.ParentID = c.ID))

/-- The channel list of the end-to-end scenario with a category more, catB,
that no channel names as parent. -/
def demoGuildChannelsB : List Channel :=
  [demoChannel 1 0 ChannelType.GuildCategory "catA", demoChannel 2 1 ChannelType.GuildText "chA1",
   demoChannel 4 0 ChannelType.GuildCategory "catB", demoChannel 3 0 ChannelType.GuildText "chTop"]

/-- A childless node whose reference is the channel id 7. -/
def demoChannelRoot : TreeNode :=
  TreeNode.mk 3 (goString "lobby") (Reference.ChannelID 7) {} true []

end Discordo

/-! ## Lemmas: addresses -/

namespace Discordo
open TreeNode

namespace TreeNode

@[simp] theorem addr_SetExpanded (b : Bool) (n : TreeNode) : (n.SetExpanded b).addr = n.addr := by
  cases n; rfl

@[simp] theorem addr_AddChild (c n : TreeNode) : (n.AddChild c).addr = n.addr := by
  cases n; rfl

@[simp] theorem addr_setChildren (cs : List TreeNode) (n : TreeNode) :
    (n.setChildren cs).addr = n.addr := by
  cases n; rfl

@[simp] theorem GetChildren_AddChild (c n : TreeNode) :
    (n.AddChild c).GetChildren = n.GetChildren ++ [c] := by
  cases n; rfl

@[simp] theorem GetReference_AddChild (c n : TreeNode) :
    (n.AddChild c).GetReference = n.GetReference := by
  cases n; rfl

@[simp] theorem GetText_AddChild (c n : TreeNode) : (n.AddChild c).GetText = n.GetText := by
  cases n; rfl

theorem addr_modifyAt (p : Nat) (f : TreeNode → TreeNode) (hf : ∀ m, (f m).addr = m.addr)
    (t : TreeNode) : (modifyAt p f t).addr = t.addr := by
  cases t with
  | mk a tx r st e cs =>
    simp only [modifyAt]
    split
    · rw [hf]; rfl
    · rfl

mutual
/-- A property of the walk state that every callback call keeps is kept by the walk. -/
theorem Walk_keeps {σ : Type} (P : σ → Prop)
    (cb : σ → TreeNode → Option TreeNode → Nat → σ × Bool)
    (h : ∀ s n p l, P s → P (cb s n p l).1) :
    ∀ (t : TreeNode) (s : σ) (parent : Option TreeNode) (level : Nat),
      P s → P (Walk cb s parent level t)
  | mk a tx r st e cs, s, parent, level, hs => by
    simp only [Walk]
    split
    · exact WalkList_keeps P cb h cs _ _ _ (h _ _ _ _ hs)
    · exact h _ _ _ _ hs
/-- The same for the walk over a list of children. -/
theorem WalkList_keeps {σ : Type} (P : σ → Prop)
    (cb : σ → TreeNode → Option TreeNode → Nat → σ × Bool)
    (h : ∀ s n p l, P s → P (cb s n p l).1) :
    ∀ (ts : List TreeNode) (s : σ) (parent : Option TreeNode) (level : Nat),
      P s → P (WalkList cb s parent level ts)
  | [], s, parent, level, hs => by simpa only [WalkList] using hs
  | c :: cs, s, parent, level, hs => by
    simp only [WalkList]
    exact WalkList_keeps P cb h cs _ _ _ (Walk_keeps P cb h c _ _ _ hs)
end

end TreeNode

theorem createChannelNode_addr (env : Env) (next : Nat) (node : TreeNode) (ch : Channel) :
    (createChannelNode env next node ch).1.addr = node.addr := by
  unfold createChannelNode; split <;> simp

theorem createTopLevel_addr (env : Env) (chs : List Channel) :
    ∀ (next : Nat) (node : TreeNode), (createTopLevel env next node chs).1.addr = node.addr := by
  induction chs with
  | nil => intro next node; rfl
  | cons c rest ih =>
    intro next node
    simp only [createTopLevel]
    split
    · rw [ih, createChannelNode_addr]
    · exact ih _ _

theorem createCategories_addr (env : Env) (all chs : List Channel) :
    ∀ (next : Nat) (node : TreeNode),
      (createCategories env all next node chs).1.addr = node.addr := by
  induction chs with
  | nil => intro next node; rfl
  | cons c rest ih =>
    intro next node
    simp only [createCategories]
    split
    · rw [ih, createChannelNode_addr]
    · exact ih _ _

theorem createNested_addr (env : Env) (chs : List Channel) :
    ∀ (next : Nat) (node : TreeNode), (createNested env next node chs).1.addr = node.addr := by
  induction chs with
  | nil => intro next node; rfl
  | cons c rest ih =>
    intro next node
    simp only [createNested]
    split
    · split
      · rw [ih]
        exact addr_modifyAt _ _ (fun m => createChannelNode_addr env next m c) node
      · exact ih _ _
    · exact ih _ _

theorem createChannelNodes_addr (env : Env) (next : Nat) (node : TreeNode) (chs : List Channel) :
    (createChannelNodes env next node chs).1.addr = node.addr := by
  simp only [createChannelNodes]
  rw [createNested_addr, createCategories_addr, createTopLevel_addr]

theorem createPrivateChannels_addr (env : Env) (chs : List Channel) :
    ∀ (next : Nat) (node : TreeNode),
      (createPrivateChannels env next node chs).1.addr = node.addr := by
  induction chs with
  | nil => intro next node; rfl
  | cons c rest ih =>
    intro next node
    simp only [createPrivateChannels]
    rw [ih, createChannelNode_addr]

theorem onSelected_addr (env : Env) (cfg : Config) (next : Nat) (selC selG : Snowflake)
    (node : TreeNode) : (onSelected env cfg next selC selG node).node.addr = node.addr := by
  unfold onSelected
  dsimp only
  repeat' split
  all_goals first
    | rfl
    | exact addr_SetExpanded _ _
    | exact createChannelNodes_addr _ _ _ _
    | exact createPrivateChannels_addr _ _ _ _

end Discordo

/-! ## Lemmas: what the operations leave alone -/

namespace Discordo
open TreeNode

theorem SameMode.refl (a : guildsTree) : SameMode a a := ⟨rfl, rfl, rfl, rfl⟩

theorem SameMode.trans {a b c : guildsTree} (h1 : SameMode a b) (h2 : SameMode b c) :
    SameMode a c :=
  ⟨h2.1.trans h1.1, h2.2.1.trans h1.2.1, h2.2.2.1.trans h1.2.2.1, h2.2.2.2.trans h1.2.2.2⟩

theorem update_sameMode (gt : guildsTree) (p : Nat) (f : TreeNode → TreeNode)
    (hf : ∀ m, (f m).addr = m.addr) : SameMode gt (gt.update p f) :=
  ⟨addr_modifyAt p f hf _, addr_modifyAt p f hf _, rfl, rfl⟩

theorem emit_sameMode (gt : guildsTree) (es : List Effect) : SameMode gt (gt.emit es) :=
  ⟨rfl, rfl, rfl, rfl⟩

theorem clearResultNode_sameMode (gt : guildsTree) : SameMode gt (clearResultNode gt) :=
  update_sameMode gt _ _ (fun _ => addr_setChildren _ _)

theorem applyFilterVisit_sameMode (env : Env) (query : GoString) (gt : guildsTree)
    (node : TreeNode) (p : Option TreeNode) (l : Nat) :
    SameMode gt (applyFilterVisit env query gt node p l).1 := by
  unfold applyFilterVisit
  repeat' split
  all_goals first
    | exact SameMode.refl _
    | exact update_sameMode gt _ _ (fun _ => addr_AddChild _ _)

theorem applyFilter_sameMode (env : Env) (gt : guildsTree) : SameMode gt (applyFilter env gt) := by
  unfold applyFilter
  dsimp only
  split
  · exact clearResultNode_sameMode gt
  · refine SameMode.trans ?_ (emit_sameMode _ _)
    have hw : SameMode gt (Walk (applyFilterVisit env (env.ToLower (clearResultNode gt).filterQuery))
        (clearResultNode gt) none 0 (clearResultNode gt).originalRoot) :=
      Walk_keeps (fun s => SameMode gt s) _
        (fun s n p l hs => SameMode.trans hs (applyFilterVisit_sameMode env _ s n p l)) _ _ _ _
        (clearResultNode_sameMode gt)
    split
    · exact SameMode.trans hw (update_sameMode _ _ _ (fun _ => addr_SetExpanded _ _))
    · exact hw

theorem onSelectedAt_sameMode (env : Env) (gt : guildsTree) (p : Nat) :
    SameMode gt (onSelectedAt env gt p) := by
  unfold onSelectedAt
  split
  · exact emit_sameMode _ _
  · exact update_sameMode gt _ _ (fun m => onSelected_addr env _ _ _ _ m)

theorem enterSelectedChannel_sameMode (env : Env) (gt : guildsTree) :
    SameMode gt (enterSelectedChannel env gt) := by
  unfold enterSelectedChannel
  split
  · exact onSelectedAt_sameMode _ _ _
  · exact SameMode.refl _

theorem createFolderGuilds_sameMode (env : Env) (folderNode : Nat) (ids : List Snowflake) :
    ∀ gt : guildsTree, SameMode gt (createFolderGuilds env folderNode gt ids) := by
  induction ids with
  | nil => intro gt; exact SameMode.refl _
  | cons g rest ih =>
    intro gt
    simp only [createFolderGuilds]
    split
    · exact SameMode.trans (emit_sameMode _ _) (ih _)
    · refine SameMode.trans ?_ (ih _)
      exact SameMode.trans (update_sameMode gt folderNode _ (fun m => by simp [createGuildNode]))
        ⟨rfl, rfl, rfl, rfl⟩

theorem createFolderNode_sameMode (env : Env) (gt : guildsTree) (folder : GuildFolder) :
    SameMode gt (createFolderNode env gt folder) := by
  unfold createFolderNode
  refine SameMode.trans ?_ (createFolderGuilds_sameMode env _ _ _)
  exact SameMode.trans (update_sameMode gt gt.root _ (fun m => addr_AddChild _ _))
    ⟨rfl, rfl, rfl, rfl⟩

theorem yankID_sameMode (gt : guildsTree) : SameMode gt (yankID gt) := by
  unfold yankID
  repeat' split
  all_goals exact ⟨rfl, rfl, rfl, rfl⟩

theorem collapseVisit_sameMode (gt0 : guildsTree) (node : Option Nat) (s : Option guildsTree)
    (n : TreeNode) (parent : Option TreeNode) (level : Nat)
    (hs : ∀ g, s = some g → SameMode gt0 g) :
    ∀ g, (collapseVisit node s n parent level).1 = some g → SameMode gt0 g := by
  intro g hg
  unfold collapseVisit at hg
  split at hg
  · cases hg
  · rename_i gt
    have h0 := hs gt rfl
    split at hg
    · split at hg
      · cases hg
      · split at hg
        · simp only [Option.some.injEq] at hg
          subst hg
          exact SameMode.trans h0
            (SameMode.trans (update_sameMode gt _ _ (fun _ => addr_SetExpanded _ _))
              ⟨rfl, rfl, rfl, rfl⟩)
        · simp only [Option.some.injEq] at hg
          subst hg; exact h0
    · simp only [Option.some.injEq] at hg
      subst hg; exact h0

theorem collapseParentNode_sameMode (gt : guildsTree) (node : Option Nat) (g : guildsTree)
    (h : collapseParentNode gt node = some g) : SameMode gt g := by
  unfold collapseParentNode at h
  split at h
  · exact Walk_keeps (fun s => ∀ g, s = some g → SameMode gt g) _
      (fun s n p l hs => collapseVisit_sameMode gt node s n p l hs) _ _ _ _
      (fun g hg => by cases hg; exact SameMode.refl _) g h
  · cases h; exact SameMode.refl _

theorem bindings_sameMode (gt : guildsTree) (event : EventKey) (g : guildsTree)
    (ev : Option EventKey) (h : bindings gt event = some (g, ev)) : SameMode gt g := by
  unfold bindings at h
  dsimp only at h
  split at h
  · cases hc : collapseParentNode gt gt.currentNode with
    | none => rw [hc] at h; cases h
    | some g1 =>
      rw [hc] at h
      simp only [Option.map_some', Option.some.injEq, Prod.mk.injEq] at h
      rw [← h.1]
      exact collapseParentNode_sameMode gt _ g1 hc
  all_goals
    repeat' split at h
    all_goals
      simp only [Option.some.injEq, Prod.mk.injEq] at h
      rw [← h.1]
      first
        | exact SameMode.refl _
        | exact emit_sameMode _ _
        | exact yankID_sameMode _

end Discordo

/-! ## Lemmas: references at the node written to -/

namespace Discordo
open TreeNode

namespace TreeNode

@[simp] theorem GetReference_SetExpanded (b : Bool) (n : TreeNode) :
    (n.SetExpanded b).GetReference = n.GetReference := by
  cases n; rfl

@[simp] theorem GetChildren_SetExpanded (b : Bool) (n : TreeNode) :
    (n.SetExpanded b).GetChildren = n.GetChildren := by
  cases n; rfl

theorem GetReference_modifyAt (p : Nat) (f : TreeNode → TreeNode)
    (hf : ∀ m, (f m).GetReference = m.GetReference) (t : TreeNode) :
    (modifyAt p f t).GetReference = t.GetReference := by
  cases t with
  | mk a tx r st e cs =>
    simp only [modifyAt]
    split
    · rw [hf]; rfl
    · rfl

end TreeNode

theorem createChannelNode_ref (env : Env) (next : Nat) (node : TreeNode) (ch : Channel) :
    (createChannelNode env next node ch).1.GetReference = node.GetReference := by
  unfold createChannelNode; split <;> simp

theorem createTopLevel_ref (env : Env) (chs : List Channel) :
    ∀ (next : Nat) (node : TreeNode),
      (createTopLevel env next node chs).1.GetReference = node.GetReference := by
  induction chs with
  | nil => intro next node; rfl
  | cons c rest ih =>
    intro next node
    simp only [createTopLevel]
    split
    · rw [ih, createChannelNode_ref]
    · exact ih _ _

theorem createCategories_ref (env : Env) (all chs : List Channel) :
    ∀ (next : Nat) (node : TreeNode),
      (createCategories env all next node chs).1.GetReference = node.GetReference := by
  induction chs with
  | nil => intro next node; rfl
  | cons c rest ih =>
    intro next node
    simp only [createCategories]
    split
    · rw [ih, createChannelNode_ref]
    · exact ih _ _

theorem createNested_ref (env : Env) (chs : List Channel) :
    ∀ (next : Nat) (node : TreeNode),
      (createNested env next node chs).1.GetReference = node.GetReference := by
  induction chs with
  | nil => intro next node; rfl
  | cons c rest ih =>
    intro next node
    simp only [createNested]
    split
    · split
      · rw [ih]
        exact GetReference_modifyAt _ _ (fun m => createChannelNode_ref env next m c) node
      · exact ih _ _
    · exact ih _ _

theorem createChannelNodes_ref (env : Env) (next : Nat) (node : TreeNode) (chs : List Channel) :
    (createChannelNodes env next node chs).1.GetReference = node.GetReference := by
  simp only [createChannelNodes]
  rw [createNested_ref, createCategories_ref, createTopLevel_ref]

end Discordo

/-! ## Lemmas: writes through a pointer found by a walk -/

namespace Discordo
open TreeNode

namespace TreeNode

theorem Below_eq (Q : TreeNode → Prop) (t : TreeNode) : Below Q t = BelowList Q t.GetChildren := by
  cases t; simp only [Below, GetChildren]

theorem BelowList_append (Q : TreeNode → Prop) (xs ys : List TreeNode) :
    BelowList Q (xs ++ ys) ↔ BelowList Q xs ∧ BelowList Q ys := by
  induction xs with
  | nil => simp [BelowList]
  | cons x xs ih =>
    show Q x ∧ Below Q x ∧ BelowList Q (xs ++ ys) ↔ (Q x ∧ Below Q x ∧ BelowList Q xs) ∧ _
    rw [ih]
    constructor
    · rintro ⟨h1, h2, h3, h4⟩; exact ⟨⟨h1, h2, h3⟩, h4⟩
    · rintro ⟨⟨h1, h2, h3⟩, h4⟩; exact ⟨h1, h2, h3, h4⟩

mutual
theorem Below_iff_preorder (Q : TreeNode → Prop) :
    ∀ t : TreeNode, Below Q t ↔ ∀ m ∈ preorderList t.GetChildren, Q m
  | mk a tx r st e cs => by
    simp only [Below, GetChildren]
    exact BelowList_iff_preorder Q cs
theorem BelowList_iff_preorder (Q : TreeNode → Prop) :
    ∀ ts : List TreeNode, BelowList Q ts ↔ ∀ m ∈ preorderList ts, Q m
  | [] => by simp [BelowList, preorderList]
  | c :: cs => by
    have h1 := Below_iff_preorder Q c
    have h2 := BelowList_iff_preorder Q cs
    cases c with
    | mk a tx r st e ks =>
      simp only [BelowList, preorderList, preorder, List.cons_append, List.mem_cons,
        List.mem_append, h1, h2, GetChildren]
      constructor
      · rintro ⟨hq, hk, hc⟩ m (hm | hm | hm)
        · rw [hm]; exact hq
        · exact hk m hm
        · exact hc m hm
      · intro h
        exact ⟨h _ (Or.inl rfl), fun m hm => h m (Or.inr (Or.inl hm)),
          fun m hm => h m (Or.inr (Or.inr hm))⟩
end

mutual
theorem modifyAt_id (p : Nat) : ∀ t : TreeNode, modifyAt p (fun m => m) t = t
  | mk a tx r st e cs => by
    simp only [modifyAt, modifyAtList_id p cs, ite_self]
theorem modifyAtList_id (p : Nat) : ∀ ts : List TreeNode, modifyAtList p (fun m => m) ts = ts
  | [] => rfl
  | c :: cs => by simp only [modifyAtList, modifyAt_id p c, modifyAtList_id p cs]
end

theorem shallow_AddChild (n c : TreeNode) : (n.AddChild c).shallow = n.shallow := by
  cases n; rfl

theorem shallow_modifyAt (p : Nat) (leaf : TreeNode) (t : TreeNode) :
    (modifyAt p (fun m => m.AddChild leaf) t).shallow = t.shallow := by
  cases t with
  | mk a tx r st e cs =>
    simp only [modifyAt]
    split
    · rw [shallow_AddChild]; rfl
    · rfl

theorem map_shallow_modifyAtList (p : Nat) (leaf : TreeNode) (ts : List TreeNode) :
    (modifyAtList p (fun m => m.AddChild leaf) ts).map shallow = ts.map shallow := by
  induction ts with
  | nil => rfl
  | cons c cs ih => simp only [modifyAtList, List.map_cons, ih, shallow_modifyAt]

theorem GetChildren_modifyAt (p : Nat) (leaf : TreeNode) (t : TreeNode) :
    (modifyAt p (fun m => m.AddChild leaf) t).GetChildren =
      modifyAtList p (fun m => m.AddChild leaf) t.GetChildren ++
        (if t.addr = p then [leaf] else []) := by
  cases t with
  | mk a tx r st e cs =>
    by_cases hap : a = p
    · simp only [modifyAt, addr, if_pos hap]; rfl
    · simp only [modifyAt, addr, if_neg hap, GetChildren, List.append_nil]

mutual
/-- A property of the nodes below a node that looks at each node and at the
addresses, texts and references of its children is carried through a write
that appends the childless node `leaf` to the children of the object at `p`. -/
theorem Below_modifyAt (p : Nat) (leaf : TreeNode) (Q Q' : TreeNode → Prop)
    (hkeep : ∀ a tx r st e cs cs', Q (mk a tx r st e cs) → cs'.map shallow = cs.map shallow →
      a ≠ p → Q' (mk a tx r st e cs'))
    (hadd : ∀ a tx r st e cs cs', Q (mk a tx r st e cs) → cs'.map shallow = cs.map shallow →
      a = p → Q' (mk a tx r st e (cs' ++ [leaf])))
    (hleaf : Q' leaf) (hleafc : leaf.GetChildren = []) :
    ∀ t : TreeNode, Below Q t → Below Q' (modifyAt p (fun m => m.AddChild leaf) t)
  | mk a tx r st e cs, h => by
    have hcs := BelowList_modifyAt p leaf Q Q' hkeep hadd hleaf hleafc cs h
    rw [Below_eq, GetChildren_modifyAt, BelowList_append]
    refine ⟨hcs, ?_⟩
    simp only [addr]
    split
    · refine ⟨hleaf, ?_, trivial⟩
      rw [Below_eq, hleafc]; trivial
    · trivial
theorem BelowList_modifyAt (p : Nat) (leaf : TreeNode) (Q Q' : TreeNode → Prop)
    (hkeep : ∀ a tx r st e cs cs', Q (mk a tx r st e cs) → cs'.map shallow = cs.map shallow →
      a ≠ p → Q' (mk a tx r st e cs'))
    (hadd : ∀ a tx r st e cs cs', Q (mk a tx r st e cs) → cs'.map shallow = cs.map shallow →
      a = p → Q' (mk a tx r st e (cs' ++ [leaf])))
    (hleaf : Q' leaf) (hleafc : leaf.GetChildren = []) :
    ∀ ts : List TreeNode, BelowList Q ts →
      BelowList Q' (modifyAtList p (fun m => m.AddChild leaf) ts)
  | [], _ => trivial
  | mk a tx r st e cs :: rest, h => by
    obtain ⟨hq, hb, hrest⟩ := h
    simp only [modifyAtList, BelowList]
    refine ⟨?_, ?_, BelowList_modifyAt p leaf Q Q' hkeep hadd hleaf hleafc rest hrest⟩
    · simp only [modifyAt]
      split
      · rename_i hap
        exact hadd a tx r st e cs _ hq (map_shallow_modifyAtList p leaf cs) hap
      · rename_i hap
        exact hkeep a tx r st e cs _ hq (map_shallow_modifyAtList p leaf cs) hap
    · have hcs := BelowList_modifyAt p leaf Q Q' hkeep hadd hleaf hleafc cs hb
      rw [Below_eq, GetChildren_modifyAt, BelowList_append]
      refine ⟨hcs, ?_⟩
      simp only [addr]
      split
      · refine ⟨hleaf, ?_, trivial⟩
        rw [Below_eq, hleafc]; trivial
      · trivial
end

end TreeNode

end Discordo

/-! ## Lemmas: where attached channel nodes come from -/

namespace Discordo
open TreeNode

theorem newChannelNode_label (env : Env) (a : Nat) (c : Channel) :
    (newChannelNode env a c).label = channelLabel env c := rfl

theorem newChannelNode_GetChildren (env : Env) (a : Nat) (c : Channel) :
    (newChannelNode env a c).GetChildren = [] := rfl

theorem newChannelNode_addr (env : Env) (a : Nat) (c : Channel) :
    (newChannelNode env a c).addr = a := rfl

theorem Below_AddChild (Q : TreeNode → Prop) (n leaf : TreeNode) (hn : Below Q n) (hl : Q leaf)
    (hlc : leaf.GetChildren = []) : Below Q (n.AddChild leaf) := by
  rw [Below_eq] at hn ⊢
  rw [GetChildren_AddChild, BelowList_append]
  refine ⟨hn, hl, ?_, trivial⟩
  rw [Below_eq, hlc]; trivial

/-- The function a write of `createChannelNode` applies: nothing for a hidden
channel, the appending of the new node otherwise. -/
theorem createChannelNode_fun (env : Env) (next : Nat) (ch : Channel) :
    (fun m => (createChannelNode env next m ch).1) =
      if channelHidden env ch then (fun m => m)
      else (fun m => m.AddChild (newChannelNode env next ch)) := by
  funext m
  unfold createChannelNode
  split <;> rfl

theorem BuiltFrom_of_shallow (env : Env) (all : List Channel) (m m' : TreeNode)
    (h : m'.label = m.label) (hm : BuiltFrom env all m) : BuiltFrom env all m' := by
  obtain ⟨c, hc, hl, hh, ha⟩ := hm
  exact ⟨c, hc, h.trans hl, hh, ha⟩

theorem Below_createChannelNode (env : Env) (all : List Channel) (next : Nat) (node : TreeNode)
    (ch : Channel) (hch : ch ∈ all) (ha : Attachable all ch)
    (hn : Below (BuiltFrom env all) node) :
    Below (BuiltFrom env all) (createChannelNode env next node ch).1 := by
  unfold createChannelNode
  split
  · exact hn
  · rename_i hh
    exact Below_AddChild _ _ _ hn
      ⟨ch, hch, rfl, by simpa using hh, ha⟩ rfl

theorem Below_createTopLevel (env : Env) (all : List Channel) (chs : List Channel)
    (hsub : ∀ c ∈ chs, c ∈ all) :
    ∀ (next : Nat) (node : TreeNode), Below (BuiltFrom env all) node →
      Below (BuiltFrom env all) (createTopLevel env next node chs).1 := by
  induction chs with
  | nil => intro next node h; exact h
  | cons c rest ih =>
    intro next node h
    have hrest : ∀ c ∈ rest, c ∈ all := fun x hx => hsub x (List.mem_cons_of_mem _ hx)
    simp only [createTopLevel]
    split
    · rename_i hcond
      refine ih hrest _ _ (Below_createChannelNode env all next node c
        (hsub c (List.mem_cons_self _ _)) (Or.inl ⟨hcond.1, by simpa using hcond.2⟩) h)
    · exact ih hrest _ _ h

theorem Below_createCategories (env : Env) (all : List Channel) (chs : List Channel)
    (hsub : ∀ c ∈ chs, c ∈ all) :
    ∀ (next : Nat) (node : TreeNode), Below (BuiltFrom env all) node →
      Below (BuiltFrom env all) (createCategories env all next node chs).1 := by
  induction chs with
  | nil => intro next node h; exact h
  | cons c rest ih =>
    intro next node h
    have hrest : ∀ c ∈ rest, c ∈ all := fun x hx => hsub x (List.mem_cons_of_mem _ hx)
    simp only [createCategories]
    split
    · rename_i hcond
      refine ih hrest _ _ (Below_createChannelNode env all next node c
        (hsub c (List.mem_cons_self _ _)) (Or.inr (Or.inl hcond)) h)
    · exact ih hrest _ _ h

theorem Below_createNested (env : Env) (all : List Channel) (chs : List Channel)
    (hsub : ∀ c ∈ chs, c ∈ all) :
    ∀ (next : Nat) (node : TreeNode), Below (BuiltFrom env all) node →
      Below (BuiltFrom env all) (createNested env next node chs).1 := by
  induction chs with
  | nil => intro next node h; exact h
  | cons c rest ih =>
    intro next node h
    have hrest : ∀ c ∈ rest, c ∈ all := fun x hx => hsub x (List.mem_cons_of_mem _ hx)
    simp only [createNested]
    split
    · rename_i hvalid
      split
      · rename_i parent hp
        refine ih hrest _ _ ?_
        rw [createChannelNode_fun]
        split
        · rw [modifyAt_id]; exact h
        · rename_i hh
          have hleaf : BuiltFrom env all (newChannelNode env next c) :=
            ⟨c, hsub c (List.mem_cons_self _ _), rfl, by simpa using hh, Or.inr (Or.inr hvalid)⟩
          exact Below_modifyAt parent _ (BuiltFrom env all) (BuiltFrom env all)
            (fun a tx r st e cs cs' hq _ _ => BuiltFrom_of_shallow env all _ _ rfl hq)
            (fun a tx r st e cs cs' hq _ _ => BuiltFrom_of_shallow env all _ _ rfl hq)
            hleaf rfl node h
      · exact ih hrest _ _ h
    · exact ih hrest _ _ h

/-- Every node below a childless node after `createChannelNodes` was built for
a channel of the list that passes the guard of `createChannelNode`. -/
theorem Below_createChannelNodes (env : Env) (next : Nat) (node : TreeNode)
    (channels : List Channel) (hc : node.GetChildren = []) :
    Below (BuiltFrom env channels) (createChannelNodes env next node channels).1 := by
  have h0 : Below (BuiltFrom env channels) node := by rw [Below_eq, hc]; trivial
  simp only [createChannelNodes]
  exact Below_createNested env channels channels (fun _ h => h) _ _
    (Below_createCategories env channels channels (fun _ h => h) _ _
      (Below_createTopLevel env channels channels (fun _ h => h) _ _ h0))

end Discordo

/-! ## Lemmas: the first two loops of `createChannelNodes` -/

namespace Discordo
open TreeNode

theorem AddChild_setChildren (n c : TreeNode) (xs : List TreeNode) :
    (n.AddChild c).setChildren ((n.AddChild c).GetChildren ++ xs) =
      n.setChildren (n.GetChildren ++ c :: xs) := by
  cases n
  simp [AddChild, setChildren, GetChildren]

theorem setChildren_self (n : TreeNode) : n.setChildren (n.GetChildren ++ []) = n := by
  cases n
  simp [setChildren, GetChildren]

theorem setChildren_GetChildren (n : TreeNode) : n.setChildren n.GetChildren = n := by
  cases n
  rfl

theorem createChannelNode_visible (env : Env) (next : Nat) (node : TreeNode) (c : Channel)
    (h : channelHidden env c = false) :
    createChannelNode env next node c = (node.AddChild (newChannelNode env next c), next + 1) := by
  unfold createChannelNode
  simp [h]

theorem createTopLevel_eq (env : Env) (chs : List Channel)
    (hv : ∀ c ∈ chs, channelHidden env c = false) :
    ∀ (next : Nat) (node : TreeNode),
      createTopLevel env next node chs =
        (node.setChildren (node.GetChildren ++ newLeaves env next (topLevelChannels chs)),
          next + (topLevelChannels chs).length) := by
  induction chs with
  | nil =>
    intro next node
    simp [createTopLevel, topLevelChannels, newLeaves, setChildren_GetChildren]
  | cons c rest ih =>
    intro next node
    have hrest : ∀ c ∈ rest, channelHidden env c = false :=
      fun x hx => hv x (List.mem_cons_of_mem _ hx)
    have hc := hv c (List.mem_cons_self _ _)
    simp only [createTopLevel]
    by_cases hcond : c.Type_ ≠ ChannelType.GuildCategory ∧ ¬ c.ParentID.IsValid = true
    · rw [if_pos hcond, createChannelNode_visible env next node c hc, ih hrest]
      have hf : topLevelChannels (c :: rest) = c :: topLevelChannels rest := by
        unfold topLevelChannels
        rw [List.filter_cons_of_pos (by simpa using hcond)]
      rw [hf]
      simp only [newLeaves, List.length_cons, AddChild_setChildren]
      congr 1
      omega
    · rw [if_neg hcond, ih hrest]
      have hf : topLevelChannels (c :: rest) = topLevelChannels rest := by
        unfold topLevelChannels
        rw [List.filter_cons_of_neg (by simpa using hcond)]
      rw [hf]

theorem createCategories_eq (env : Env) (all chs : List Channel)
    (hv : ∀ c ∈ chs, channelHidden env c = false) :
    ∀ (next : Nat) (node : TreeNode),
      createCategories env all next node chs =
        (node.setChildren (node.GetChildren ++ newLeaves env next
            (chs.filter (fun c =>
              decide (c.Type_ = ChannelType.GuildCategory ∧ hasNested all c = true)))),
          next + (chs.filter (fun c =>
              decide (c.Type_ = ChannelType.GuildCategory ∧ hasNested all c = true))).length) := by
  induction chs with
  | nil =>
    intro next node
    simp [createCategories, newLeaves, setChildren_GetChildren]
  | cons c rest ih =>
    intro next node
    have hrest : ∀ c ∈ rest, channelHidden env c = false :=
      fun x hx => hv x (List.mem_cons_of_mem _ hx)
    have hc := hv c (List.mem_cons_self _ _)
    simp only [createCategories]
    by_cases hcond : c.Type_ = ChannelType.GuildCategory ∧ hasNested all c = true
    · rw [if_pos hcond, createChannelNode_visible env next node c hc, ih hrest]
      rw [List.filter_cons_of_pos (by simpa using hcond)]
      simp only [newLeaves, List.length_cons, AddChild_setChildren]
      congr 1
      omega
    · rw [if_neg hcond, ih hrest]
      rw [List.filter_cons_of_neg (by simpa using hcond)]

theorem newLeaves_append (env : Env) (xs ys : List Channel) :
    ∀ a : Nat, newLeaves env a (xs ++ ys) = newLeaves env a xs ++ newLeaves env (a + xs.length) ys := by
  induction xs with
  | nil => intro a; simp [newLeaves]
  | cons x xs ih =>
    intro a
    have hlen : a + (xs.length + 1) = a + 1 + xs.length := by omega
    show newChannelNode env a x :: newLeaves env (a + 1) (xs ++ ys) =
      newChannelNode env a x :: newLeaves env (a + 1) xs ++
        newLeaves env (a + (xs.length + 1)) ys
    rw [ih, hlen]
    rfl

theorem newLeaves_map_label (env : Env) (xs : List Channel) :
    ∀ a : Nat, (newLeaves env a xs).map label = xs.map (channelLabel env) := by
  induction xs with
  | nil => intro a; rfl
  | cons x xs ih => intro a; simp only [newLeaves, List.map_cons, ih, newChannelNode_label]

/-- The tree after the first two loops on a childless node, all channels in view. -/
theorem firstLoops_eq (env : Env) (next : Nat) (node : TreeNode) (channels : List Channel)
    (hc : node.GetChildren = []) (hv : ∀ c ∈ channels, channelHidden env c = false) :
    createCategories env channels (createTopLevel env next node channels).2
        (createTopLevel env next node channels).1 channels =
      (node.setChildren
          (newLeaves env next (topLevelChannels channels ++ namedCategories channels)),
        next + (topLevelChannels channels ++ namedCategories channels).length) := by
  rw [createTopLevel_eq env channels hv, createCategories_eq env channels channels hv]
  have h1 : (node.setChildren (node.GetChildren ++ newLeaves env next (topLevelChannels channels))).GetChildren
      = newLeaves env next (topLevelChannels channels) := by
    cases node; simp [setChildren, GetChildren] at hc ⊢; simp [hc]
  dsimp only
  rw [h1, newLeaves_append]
  unfold namedCategories
  congr 1
  · cases node; simp [setChildren]
  · simp [List.length_append]; omega

end Discordo

/-! ## Lemmas: the walk that looks for the parent -/

namespace Discordo
open TreeNode

namespace TreeNode

theorem preorder_eq (t : TreeNode) : t.preorder = t :: preorderList t.GetChildren := by
  cases t; rfl

theorem mem_preorder_self (t : TreeNode) : t ∈ t.preorder := by
  rw [preorder_eq]; exact List.mem_cons_self _ _

theorem preorderList_append (xs ys : List TreeNode) :
    preorderList (xs ++ ys) = preorderList xs ++ preorderList ys := by
  induction xs with
  | nil => rfl
  | cons x xs ih =>
    show preorder x ++ preorderList (xs ++ ys) = (preorder x ++ preorderList xs) ++ preorderList ys
    rw [ih, List.append_assoc]

theorem mem_preorderList_of_mem (c : TreeNode) (cs : List TreeNode) (h : c ∈ cs) :
    c ∈ preorderList cs := by
  induction cs with
  | nil => cases h
  | cons x xs ih =>
    show c ∈ preorder x ++ preorderList xs
    rcases List.mem_cons.mp h with h1 | h1
    · rw [h1]; exact List.mem_append_left _ (mem_preorder_self x)
    · exact List.mem_append_right _ (ih h1)

theorem Below_mono (Q Q' : TreeNode → Prop) (h : ∀ m, Q m → Q' m) (t : TreeNode)
    (ht : Below Q t) : Below Q' t := by
  rw [Below_iff_preorder] at ht ⊢
  exact fun m hm => h m (ht m hm)

mutual
/-- The walk keeps a property of its state that every callback call on a node
satisfying `R` keeps, when all nodes of the subtree satisfy `R`. -/
theorem Walk_keeps_on {σ : Type} (P : σ → Prop) (R : TreeNode → Prop)
    (cb : σ → TreeNode → Option TreeNode → Nat → σ × Bool)
    (h : ∀ s n p l, R n → P s → P (cb s n p l).1) :
    ∀ (t : TreeNode) (s : σ) (parent : Option TreeNode) (level : Nat),
      (∀ n ∈ t.preorder, R n) → P s → P (Walk cb s parent level t)
  | mk a tx r st e cs, s, parent, level, hR, hs => by
    have h0 := h s (mk a tx r st e cs) parent level (hR _ (mem_preorder_self _)) hs
    simp only [Walk]
    split
    · exact WalkList_keeps_on P R cb h cs _ _ _
        (fun n hn => hR n (by rw [preorder_eq]; exact List.mem_cons_of_mem _ hn)) h0
    · exact h0
theorem WalkList_keeps_on {σ : Type} (P : σ → Prop) (R : TreeNode → Prop)
    (cb : σ → TreeNode → Option TreeNode → Nat → σ × Bool)
    (h : ∀ s n p l, R n → P s → P (cb s n p l).1) :
    ∀ (ts : List TreeNode) (s : σ) (parent : Option TreeNode) (level : Nat),
      (∀ n ∈ preorderList ts, R n) → P s → P (WalkList cb s parent level ts)
  | [], s, parent, level, _, hs => by simpa only [WalkList] using hs
  | c :: cs, s, parent, level, hR, hs => by
    simp only [WalkList]
    exact WalkList_keeps_on P R cb h cs _ _ _
      (fun n hn => hR n (List.mem_append_right _ hn))
      (Walk_keeps_on P R cb h c _ _ _ (fun n hn => hR n (List.mem_append_left _ hn)) hs)
end

end TreeNode

/-- The pointer the walk of the third loop leaves in `parent` is the address
of a node of the subtree whose reference is the parent id. -/
theorem findParent_some (node : TreeNode) (pid : Snowflake) (p : Nat)
    (h : findParent node pid = some p) :
    ∃ n ∈ node.preorder, n.addr = p ∧ n.GetReference = Reference.ChannelID pid := by
  have key := Walk_keeps_on
    (fun s : Option Nat => ∀ q, s = some q →
      ∃ n ∈ node.preorder, n.addr = q ∧ n.GetReference = Reference.ChannelID pid)
    (fun n => n ∈ node.preorder) (findParentVisit pid)
    (fun s n par l hn hs q hq => by
      unfold findParentVisit at hq
      split at hq
      · rename_i href
        simp only [Option.some.injEq] at hq
        exact ⟨n, hn, hq, href⟩
      · exact hs q hq)
    node none none 0 (fun n hn => hn) (fun q hq => by cases hq)
  exact key p h

theorem findParentVisit_isSome (pid : Snowflake) (s : Option Nat) (n : TreeNode)
    (par : Option TreeNode) (l : Nat) (hs : s.isSome = true) :
    (findParentVisit pid s n par l).1.isSome = true := by
  unfold findParentVisit
  split
  · rfl
  · exact hs

theorem Walk_findParent_match (pid : Snowflake) (s : Option Nat) (c : TreeNode)
    (par : Option TreeNode) (l : Nat) (h : c.GetReference = Reference.ChannelID pid) :
    (Walk (findParentVisit pid) s par l c).isSome = true := by
  cases c with
  | mk a tx r st e cs =>
    simp only [Walk, findParentVisit, h, if_true]
    rfl

theorem WalkList_findParent_isSome (pid : Snowflake) (cs : List TreeNode) :
    ∀ (s : Option Nat) (par : Option TreeNode) (l : Nat),
      (s.isSome = true ∨ ∃ c ∈ cs, c.GetReference = Reference.ChannelID pid) →
      (WalkList (findParentVisit pid) s par l cs).isSome = true := by
  induction cs with
  | nil =>
    intro s par l h
    rcases h with h | ⟨c, hc, _⟩
    · simpa only [WalkList] using h
    · cases hc
  | cons c rest ih =>
    intro s par l h
    simp only [WalkList]
    apply ih
    rcases h with h | ⟨d, hd, hdr⟩
    · left
      exact Walk_keeps (fun s => s.isSome = true) _
        (fun s n p l hs => findParentVisit_isSome pid s n p l hs) c s par l h
    · rcases List.mem_cons.mp hd with h1 | h1
      · left
        rw [h1] at hdr
        exact Walk_findParent_match pid s c par l hdr
      · right
        exact ⟨d, h1, hdr⟩

/-- The walk of the third loop finds a parent when a child of the node the
walk starts from holds the parent id. -/
theorem findParent_isSome (node : TreeNode) (pid : Snowflake)
    (h : ∃ c ∈ node.GetChildren, c.GetReference = Reference.ChannelID pid) :
    (findParent node pid).isSome = true := by
  cases node with
  | mk a tx r st e cs =>
    unfold findParent
    simp only [Walk]
    split
    · exact WalkList_findParent_isSome pid cs _ _ _ (Or.inr h)
    · rename_i hgo
      unfold findParentVisit at hgo ⊢
      split
      · rfl
      · rename_i hne
        simp [hne] at hgo

end Discordo

/-! ## Lemmas: nodes before and after a write -/

namespace Discordo
open TreeNode

namespace TreeNode

theorem label_of_shallow {m m' : TreeNode} (h : m'.shallow = m.shallow) : m'.label = m.label := by
  have := congrArg Prod.snd h
  exact this

theorem map_label_of_map_shallow {xs ys : List TreeNode}
    (h : xs.map shallow = ys.map shallow) : xs.map label = ys.map label := by
  have := congrArg (List.map Prod.snd) h
  simpa [List.map_map, Function.comp_def, shallow, label] using this

theorem map_label_modifyAtList (p : Nat) (leaf : TreeNode) (ts : List TreeNode) :
    (modifyAtList p (fun m => m.AddChild leaf) ts).map label = ts.map label :=
  map_label_of_map_shallow (map_shallow_modifyAtList p leaf ts)

theorem preorder_modifyAt (p : Nat) (leaf : TreeNode) (t : TreeNode) :
    (modifyAt p (fun m => m.AddChild leaf) t).preorder =
      modifyAt p (fun m => m.AddChild leaf) t ::
        (preorderList (modifyAtList p (fun m => m.AddChild leaf) t.GetChildren) ++
          preorderList (if t.addr = p then [leaf] else [])) := by
  rw [preorder_eq, GetChildren_modifyAt, preorderList_append]

mutual
/-- Every node of a subtree is still there after a write that appends `leaf`
to the children of the object at `p`: with its address, text and reference,
with the children it showed, and with `leaf` among them when it is at `p`. -/
theorem modifyAt_corr (p : Nat) (leaf : TreeNode) :
    ∀ t : TreeNode, ∀ m ∈ t.preorder,
      ∃ m' ∈ (modifyAt p (fun m => m.AddChild leaf) t).preorder, m'.shallow = m.shallow ∧
        (∀ l ∈ m.GetChildren.map label, l ∈ m'.GetChildren.map label) ∧
        (m.addr = p → leaf.label ∈ m'.GetChildren.map label)
  | mk a tx r st e cs, m, hm => by
    rw [preorder_eq] at hm
    rcases List.mem_cons.mp hm with h1 | h1
    · refine ⟨_, mem_preorder_self _, ?_, ?_, ?_⟩
      · rw [h1]; exact shallow_modifyAt p leaf _
      · intro l hl
        rw [h1] at hl
        rw [GetChildren_modifyAt, List.map_append, map_label_modifyAtList]
        exact List.mem_append_left _ hl
      · intro hp
        rw [h1] at hp
        rw [GetChildren_modifyAt, List.map_append, if_pos hp]
        exact List.mem_append_right _ (by simp)
    · obtain ⟨m', hm', hs⟩ := modifyAtList_corr p leaf cs m h1
      refine ⟨m', ?_, hs⟩
      rw [preorder_modifyAt]
      exact List.mem_cons_of_mem _ (List.mem_append_left _ hm')
theorem modifyAtList_corr (p : Nat) (leaf : TreeNode) :
    ∀ ts : List TreeNode, ∀ m ∈ preorderList ts,
      ∃ m' ∈ preorderList (modifyAtList p (fun m => m.AddChild leaf) ts),
        m'.shallow = m.shallow ∧
        (∀ l ∈ m.GetChildren.map label, l ∈ m'.GetChildren.map label) ∧
        (m.addr = p → leaf.label ∈ m'.GetChildren.map label)
  | [], m, hm => by cases hm
  | c :: cs, m, hm => by
    have hm2 : m ∈ preorder c ++ preorderList cs := hm
    show ∃ m' ∈ preorder (modifyAt p (fun m => m.AddChild leaf) c) ++
        preorderList (modifyAtList p (fun m => m.AddChild leaf) cs), _
    rcases List.mem_append.mp hm2 with h1 | h1
    · obtain ⟨m', hm', hs⟩ := modifyAt_corr p leaf c m h1
      exact ⟨m', List.mem_append_left _ hm', hs⟩
    · obtain ⟨m', hm', hs⟩ := modifyAtList_corr p leaf cs m h1
      exact ⟨m', List.mem_append_right _ hm', hs⟩
end

theorem HasChildUnder_modifyAt (p : Nat) (leaf : TreeNode) (t : TreeNode) (r : Reference)
    (l : GoString × Reference) (h : t.HasChildUnder r l) :
    (modifyAt p (fun m => m.AddChild leaf) t).HasChildUnder r l := by
  obtain ⟨m, hm, hr, hl⟩ := h
  obtain ⟨m', hm', hs, hk, _⟩ := modifyAt_corr p leaf t m hm
  refine ⟨m', hm', ?_, hk l hl⟩
  have := congrArg Prod.snd (label_of_shallow hs)
  exact this.trans hr

theorem HasChildUnder_modifyAt_new (p : Nat) (leaf : TreeNode) (t : TreeNode) (n : TreeNode)
    (hn : n ∈ t.preorder) (hp : n.addr = p) :
    (modifyAt p (fun m => m.AddChild leaf) t).HasChildUnder n.GetReference leaf.label := by
  obtain ⟨m', hm', hs, _, hnew⟩ := modifyAt_corr p leaf t n hn
  exact ⟨m', hm', congrArg Prod.snd (label_of_shallow hs), hnew hp⟩

end TreeNode

end Discordo

/-! ## Lemmas: the third loop of `createChannelNodes` -/

namespace Discordo
open TreeNode

theorem channelsUnder_append (xs ys : List Channel) (r : Reference) :
    channelsUnder (xs ++ ys) r = channelsUnder xs r ++ channelsUnder ys r := by
  unfold channelsUnder
  exact List.filter_append _ _

theorem channelsUnder_single_pos (c : Channel) (r : Reference)
    (h : c.ParentID.IsValid = true ∧ Reference.ChannelID c.ParentID = r) :
    channelsUnder [c] r = [c] := by
  unfold channelsUnder
  rw [List.filter_cons_of_pos (by simpa using h)]
  rfl

theorem NestedNode_done (env : Env) (lo nx : Nat) (refOf : Nat → Reference)
    (done : List Channel) (c : Channel) (m : TreeNode)
    (h : NestedNode env lo nx refOf done m) : NestedNode env lo nx refOf (done ++ [c]) m := by
  obtain ⟨h1, h2, h3, h4⟩ := h
  refine ⟨h1, h2, h3, ?_⟩
  rw [channelsUnder_append, List.map_append]
  exact h4.trans (List.sublist_append_left _ _)

theorem NestedTree_skip (env : Env) (lo nx : Nat) (rootRef : Reference)
    (kids : List (Nat × GoString × Reference)) (done : List Channel) (c : Channel)
    (t : TreeNode) (h : NestedTree env lo nx rootRef kids done t)
    (hc : c.ParentID.IsValid = true → (∃ k ∈ kids, k.2.2 = Reference.ChannelID c.ParentID) →
      t.HasChildUnder (Reference.ChannelID c.ParentID) (channelLabel env c)) :
    NestedTree env lo nx rootRef kids (done ++ [c]) t := by
  obtain ⟨h1, h2, h3, h4, ⟨refOf, h5⟩, h6⟩ := h
  refine ⟨h1, h2, h3, h4, ⟨refOf, Below_mono _ _ (NestedNode_done env lo nx refOf done c) t h5⟩, ?_⟩
  intro ch hch hv hk
  rcases List.mem_append.mp hch with hd | hd
  · exact h6 ch hd hv hk
  · rw [List.mem_singleton.mp hd] at hv hk ⊢
    exact hc hv hk

theorem NestedTree_attach (env : Env) (lo nx : Nat) (rootRef : Reference)
    (kids : List (Nat × GoString × Reference)) (done : List Channel) (c : Channel)
    (t : TreeNode) (p : Nat) (h : NestedTree env lo nx rootRef kids done t)
    (hv : c.ParentID.IsValid = true) (hroot : rootRef ≠ Reference.ChannelID c.ParentID)
    (hp : findParent t c.ParentID = some p) :
    NestedTree env lo (nx + 1) rootRef kids (done ++ [c])
      (modifyAt p (fun m => m.AddChild (newChannelNode env nx c)) t) := by
  obtain ⟨h1, h2, h3, h4, ⟨refOf, h5⟩, h6⟩ := h
  obtain ⟨n0, hn0, hn0a, hn0r⟩ := findParent_some t c.ParentID p hp
  have hn0b : n0 ∈ preorderList t.GetChildren := by
    rw [preorder_eq] at hn0
    rcases List.mem_cons.mp hn0 with he | he
    · rw [he, h3] at hn0r; exact absurd hn0r hroot
    · exact he
  have hq0 := (Below_iff_preorder _ _).mp h5 n0 hn0b
  have hlop : lo ≤ p := by rw [← hn0a]; exact hq0.1
  have hpnx : p < nx := by rw [← hn0a]; exact hq0.2.1
  have hrefp : refOf p = Reference.ChannelID c.ParentID := by
    rw [← hn0a, ← hq0.2.2.1]; exact hn0r
  have htp : t.addr ≠ p := by omega
  refine ⟨?_, by omega, ?_, ?_, ?_, ?_⟩
  · rw [addr_modifyAt _ _ (fun m => addr_AddChild _ _)]; exact h1
  · rw [GetReference_modifyAt _ _ (fun m => GetReference_AddChild _ _)]; exact h3
  · rw [GetChildren_modifyAt, if_neg htp, List.append_nil, map_shallow_modifyAtList]; exact h4
  · refine ⟨Function.update refOf nx (Reference.ChannelID c.ID), ?_⟩
    refine Below_modifyAt p (newChannelNode env nx c) (NestedNode env lo nx refOf done)
      (NestedNode env lo (nx + 1) (Function.update refOf nx (Reference.ChannelID c.ID))
        (done ++ [c])) ?_ ?_ ?_ rfl t h5
    · intro a tx r st e cs cs' hq hsh hap
      obtain ⟨q1, q2, q3, q4⟩ := hq
      have q1' : lo ≤ a := q1
      have q2' : a < nx := q2
      refine ⟨q1, Nat.lt_succ_of_lt q2, ?_, ?_⟩
      · show r = Function.update refOf nx (Reference.ChannelID c.ID) a
        rw [Function.update_noteq (by omega)]; exact q3
      · show (cs'.map label).Sublist _
        rw [map_label_of_map_shallow hsh, channelsUnder_append, List.map_append]
        exact List.Sublist.trans q4 (List.sublist_append_left _ _)
    · intro a tx r st e cs cs' hq hsh hap
      obtain ⟨q1, q2, q3, q4⟩ := hq
      have q2' : a < nx := q2
      have hr : r = Reference.ChannelID c.ParentID := by
        have : r = refOf a := q3
        rw [this, hap, hrefp]
      refine ⟨q1, Nat.lt_succ_of_lt q2, ?_, ?_⟩
      · show r = Function.update refOf nx (Reference.ChannelID c.ID) a
        rw [Function.update_noteq (by omega)]; exact q3
      · show ((cs' ++ [newChannelNode env nx c]).map label).Sublist
          ((channelsUnder (done ++ [c]) r).map (channelLabel env))
        rw [List.map_append, map_label_of_map_shallow hsh, channelsUnder_append,
          channelsUnder_single_pos c r ⟨hv, hr.symm⟩, List.map_append]
        exact List.Sublist.append q4 (List.Sublist.refl _)
    · refine ⟨?_, ?_, ?_, ?_⟩
      · show lo ≤ nx; exact h2
      · show nx < nx + 1; omega
      · show Reference.ChannelID c.ID = Function.update refOf nx (Reference.ChannelID c.ID) nx
        rw [Function.update_same]
      · show ([] : List (GoString × Reference)).Sublist _
        exact List.nil_sublist _
  · intro ch hch hvch hk
    rcases List.mem_append.mp hch with hd | hd
    · exact HasChildUnder_modifyAt p _ t _ _ (h6 ch hd hvch hk)
    · rw [List.mem_singleton.mp hd]
      have := HasChildUnder_modifyAt_new p (newChannelNode env nx c) t n0 hn0 hn0a
      rw [hn0r] at this
      exact this

theorem createNested_tree (env : Env) (lo : Nat) (rootRef : Reference)
    (kids : List (Nat × GoString × Reference)) (chs : List Channel) :
    ∀ (done : List Channel) (nx : Nat) (t : TreeNode),
      (∀ c ∈ chs, channelHidden env c = false) →
      (∀ c ∈ chs, c.ParentID.IsValid = true → rootRef ≠ Reference.ChannelID c.ParentID) →
      NestedTree env lo nx rootRef kids done t →
      NestedTree env lo (createNested env nx t chs).2 rootRef kids (done ++ chs)
        (createNested env nx t chs).1 := by
  induction chs with
  | nil => intro done nx t _ _ h; simpa [createNested] using h
  | cons c rest ih =>
    intro done nx t hv hroot h
    have hrest : ∀ c ∈ rest, channelHidden env c = false :=
      fun x hx => hv x (List.mem_cons_of_mem _ hx)
    have hroot' : ∀ c ∈ rest, c.ParentID.IsValid = true →
        rootRef ≠ Reference.ChannelID c.ParentID :=
      fun x hx => hroot x (List.mem_cons_of_mem _ hx)
    have hc := hv c (List.mem_cons_self _ _)
    have happ : done ++ c :: rest = (done ++ [c]) ++ rest := by simp
    rw [happ]
    simp only [createNested]
    by_cases hvalid : c.ParentID.IsValid = true
    · rw [if_pos hvalid]
      cases hp : findParent t c.ParentID with
      | some p =>
        simp only []
        rw [createChannelNode_fun, if_neg (by simp [hc]), createChannelNode_visible env nx t c hc]
        exact ih (done ++ [c]) (nx + 1) _ hrest hroot' (NestedTree_attach env lo nx rootRef kids done c t p h hvalid (hroot c (List.mem_cons_self _ _) hvalid) hp)
      | none =>
        simp only []
        refine ih (done ++ [c]) nx t hrest hroot' (NestedTree_skip env lo nx rootRef kids done c t h ?_)
        intro _ hk
        exfalso
        obtain ⟨k, hk1, hk2⟩ := hk
        rw [← h.2.2.2.1] at hk1
        obtain ⟨ch, hch, hche⟩ := List.mem_map.mp hk1
        have hsome := findParent_isSome t c.ParentID ⟨ch, hch, by rw [← hk2, ← hche]; rfl⟩
        rw [hp] at hsome
        cases hsome
    · rw [if_neg hvalid]
      exact ih (done ++ [c]) nx t hrest hroot'
        (NestedTree_skip env lo nx rootRef kids done c t h (fun hv' => absurd hv' hvalid))

end Discordo

/-! ## Lemmas: what `applyFilter` computes -/

namespace Discordo
open TreeNode

namespace TreeNode

mutual
theorem Walk_of_const {σ : Type} (cb : σ → TreeNode → Option TreeNode → Nat → σ × Bool)
    (h : ∀ s n p l, cb s n p l = (s, true)) :
    ∀ (t : TreeNode) (s : σ) (parent : Option TreeNode) (level : Nat),
      Walk cb s parent level t = s
  | mk a tx r st e cs, s, parent, level => by
    simp only [Walk, h, if_true]
    exact WalkList_of_const cb h cs s _ _
theorem WalkList_of_const {σ : Type} (cb : σ → TreeNode → Option TreeNode → Nat → σ × Bool)
    (h : ∀ s n p l, cb s n p l = (s, true)) :
    ∀ (ts : List TreeNode) (s : σ) (parent : Option TreeNode) (level : Nat),
      WalkList cb s parent level ts = s
  | [], s, parent, level => rfl
  | c :: cs, s, parent, level => by
    simp only [WalkList, Walk_of_const cb h c s parent level]
    exact WalkList_of_const cb h cs s parent level
end

end TreeNode

theorem applyFilterVisit_const (env : Env) (query : GoString) (gt : guildsTree) (node : TreeNode)
    (p : Option TreeNode) (l : Nat) : applyFilterVisit env query gt node p l = (gt, true) := by
  unfold applyFilterVisit
  cases h : node.GetReference <;> simp

/-- The method `applyFilter` clears the results and, for a query that is not
empty, refocuses and redraws: its walk adds nothing. -/
theorem applyFilter_eq (env : Env) (gt : guildsTree) :
    applyFilter env gt =
      if gt.filterQuery = [] then clearResultNode gt
      else (clearResultNode gt).emit [Effect.focusTree, Effect.draw] := by
  unfold applyFilter
  dsimp only
  have hq : (clearResultNode gt).filterQuery = gt.filterQuery := rfl
  rw [hq]
  split
  · rfl
  · rw [Walk_of_const _ (applyFilterVisit_const env _)]
    have hf : (clearResultNode gt).filteredNodes = [] := rfl
    simp only [hf]

/-- Typing a character below 128 and pressing Backspace gives the query back. -/
theorem backspace_after_ascii (env : Env) (gt : guildsTree) (c : Int)
    (hf : gt.isFiltering = true) (h32 : 32 ≤ c) (h128 : c < 128) :
    ((onInputCapture env gt (runeEvent c)).bind
        (fun r => onInputCapture env r.1 backspaceEvent)).map
      (fun r => r.1.filterQuery) = some gt.filterQuery := by
  have henc : encodeRune c = [c.toNat] := by
    unfold encodeRune
    have h1 : ¬ c < 0 := by omega
    have h2 : c.toNat < 128 := by omega
    simp [h1, h2]
  have hc0 : c ≠ 0 := by omega
  simp only [onInputCapture, runeEvent, backspaceEvent, hf, filterInput, henc, applyFilter_eq, reduceCtorEq, if_false,
    if_true, ne_eq, hc0, not_false_eq_true, ge_iff_le, h32, and_self, Option.some_bind]
  simp only [guildsTree.emit, clearResultNode, guildsTree.update, List.length_append,
    List.length_singleton, Nat.add_sub_cancel, List.take_left', List.length_nil, gt_iff_lt,
    Nat.lt_add_left_iff_pos, Nat.lt_one_iff, pos_of_gt, if_true, Option.map_some',
    Option.some.injEq, List.append_eq_nil, and_false, reduceCtorEq, if_false, Nat.zero_lt_succ,
    Nat.lt_add_one, List.length_cons, Option.some_bind]
  split <;> rfl

end Discordo

/-! ## Lemmas: counting the nodes a write adds -/

namespace Discordo
open TreeNode

namespace TreeNode

theorem preorder_leaf (leaf : TreeNode) (h : leaf.GetChildren = []) : leaf.preorder = [leaf] := by
  rw [preorder_eq, h]; rfl

mutual
/-- A write that appends the childless node `leaf` to the children of the
object at `p` adds one copy of `leaf` for each node at address `p`. -/
theorem modifyAt_perm (p : Nat) (leaf : TreeNode) (hl : leaf.GetChildren = []) :
    ∀ t : TreeNode,
      ((modifyAt p (fun m => m.AddChild leaf) t).preorder.map shallow).Perm
        (t.preorder.map shallow ++
          List.replicate ((t.preorder.map addr).count p) leaf.shallow)
  | mk a tx r st e cs => by
    have ih := modifyAtList_perm p leaf hl cs
    rw [preorder_modifyAt, preorder_eq]
    simp only [List.map_cons, List.map_append, shallow_modifyAt, GetChildren, addr,
      List.cons_append]
    refine List.Perm.cons _ ?_
    by_cases hap : a = p
    · rw [if_pos hap, List.count_cons, hap]
      simp only [beq_self_eq_true, if_true, List.replicate_succ']
      have hleaf : (preorderList [leaf]).map shallow = [leaf.shallow] := by
        show (preorder leaf ++ preorderList []).map shallow = _
        rw [preorder_leaf leaf hl]; rfl
      rw [hleaf, ← List.append_assoc]
      exact List.Perm.append_right _ ih
    · rw [if_neg hap, List.count_cons]
      have hne : (a == p) = false := by simpa using hap
      simp only [hne, Bool.false_eq_true, if_false, Nat.add_zero]
      have hnil : (preorderList ([] : List TreeNode)).map shallow = [] := rfl
      rw [hnil, List.append_nil]
      exact ih
theorem modifyAtList_perm (p : Nat) (leaf : TreeNode) (hl : leaf.GetChildren = []) :
    ∀ ts : List TreeNode,
      ((preorderList (modifyAtList p (fun m => m.AddChild leaf) ts)).map shallow).Perm
        ((preorderList ts).map shallow ++
          List.replicate (((preorderList ts).map addr).count p) leaf.shallow)
  | [] => by
    show List.Perm [] ([] ++ List.replicate 0 leaf.shallow)
    exact List.Perm.refl _
  | c :: cs => by
    have h1 := modifyAt_perm p leaf hl c
    have h2 := modifyAtList_perm p leaf hl cs
    show ((preorder (modifyAt p (fun m => m.AddChild leaf) c) ++
        preorderList (modifyAtList p (fun m => m.AddChild leaf) cs)).map shallow).Perm
      ((preorder c ++ preorderList cs).map shallow ++
        List.replicate (((preorder c ++ preorderList cs).map addr).count p) leaf.shallow)
    rw [List.map_append, List.map_append, List.map_append, List.count_append,
      List.replicate_add]
    refine (List.Perm.append h1 h2).trans ?_
    -- (X ++ rep k1) ++ (Y ++ rep k2) ~ (X ++ Y) ++ (rep k1 ++ rep k2)
    rw [List.append_assoc, List.append_assoc]
    refine List.Perm.append_left _ ?_
    rw [← List.append_assoc, ← List.append_assoc]
    exact List.Perm.append_right _ List.perm_append_comm
end

theorem GrowsBy_modifyAt (p : Nat) (leaf : TreeNode) (hl : leaf.GetChildren = []) (t : TreeNode)
    (hnd : (t.preorder.map addr).Nodup) (hp : p ∈ t.preorder.map addr) :
    GrowsBy leaf t (modifyAt p (fun m => m.AddChild leaf) t) := by
  refine ⟨?_, shallow_modifyAt p leaf t⟩
  have h := modifyAt_perm p leaf hl t
  rw [List.count_eq_one_of_mem hnd hp] at h
  exact h

theorem GrowsBy_AddChild (leaf : TreeNode) (hl : leaf.GetChildren = []) (t : TreeNode) :
    GrowsBy leaf t (t.AddChild leaf) := by
  refine ⟨?_, shallow_AddChild t leaf⟩
  rw [preorder_eq, preorder_eq t, GetChildren_AddChild, preorderList_append]
  have hleaf : preorderList [leaf] = [leaf] := by
    show preorder leaf ++ preorderList [] = _
    rw [preorder_leaf leaf hl]; rfl
  rw [hleaf]
  simp only [List.map_cons, List.map_append, shallow_AddChild, List.cons_append, List.map_nil]
  exact List.Perm.refl _

end TreeNode

end Discordo

/-! ## Lemmas: every channel is attached at most once -/

namespace Discordo
open TreeNode

theorem map_addr_eq (l : List TreeNode) : l.map addr = (l.map shallow).map Prod.fst := by
  rw [List.map_map]; rfl

theorem map_ref_eq (l : List TreeNode) :
    l.map GetReference = (l.map shallow).map (fun s => s.2.2) := by
  rw [List.map_map]; rfl

theorem AttachedOnce_mono (nx : Nat) (used used' : List Snowflake) (t : TreeNode)
    (h : AttachedOnce nx used t) (hsub : ∀ i ∈ used, i ∈ used') : AttachedOnce nx used' t := by
  obtain ⟨h1, h2, h3, h4⟩ := h
  refine ⟨h1, h2, h3, ?_⟩
  intro r hr
  obtain ⟨i, hi, hri⟩ := h4 r hr
  exact ⟨i, hsub i hi, hri⟩

theorem AttachedOnce_grow (env : Env) (nx : Nat) (used : List Snowflake) (t t' : TreeNode)
    (c : Channel) (h : AttachedOnce nx used t) (hc : c.ID ∉ used)
    (hg : GrowsBy (newChannelNode env nx c) t t') :
    AttachedOnce (nx + 1) (used ++ [c.ID]) t' := by
  obtain ⟨h1, h2, h3, h4⟩ := h
  obtain ⟨hperm, hsh⟩ := hg
  have haddr : (t'.preorder.map addr).Perm (t.preorder.map addr ++ [nx]) := by
    rw [map_addr_eq, map_addr_eq]
    have := hperm.map Prod.fst
    simpa [List.map_append] using this
  have href0 : (t'.preorder.map GetReference).Perm
      (t.preorder.map GetReference ++ [Reference.ChannelID c.ID]) := by
    rw [map_ref_eq, map_ref_eq]
    have := hperm.map (fun s : Nat × GoString × Reference => s.2.2)
    simpa [List.map_append] using this
  have hrt : t'.GetReference = t.GetReference := congrArg (fun s => s.2.2) hsh
  have href : ((preorderList t'.GetChildren).map GetReference).Perm
      ((preorderList t.GetChildren).map GetReference ++ [Reference.ChannelID c.ID]) := by
    rw [preorder_eq t', preorder_eq t, List.map_cons, List.map_cons, hrt,
      List.cons_append] at href0
    exact href0.cons_inv
  have hnew : Reference.ChannelID c.ID ∉ (preorderList t.GetChildren).map GetReference := by
    intro hin
    obtain ⟨i, hi, hri⟩ := h4 _ hin
    rw [Reference.ChannelID.inj hri] at hc
    exact hc hi
  refine ⟨?_, ?_, ?_, ?_⟩
  · rw [haddr.nodup_iff]
    refine List.Nodup.append h1 (List.nodup_singleton _) ?_
    intro a ha hb
    rw [List.mem_singleton] at hb
    have := h2 a ha
    omega
  · intro a ha
    rcases List.mem_append.mp (haddr.mem_iff.mp ha) with h | h
    · exact Nat.lt_succ_of_lt (h2 a h)
    · rw [List.mem_singleton.mp h]; exact Nat.lt_succ_self _
  · rw [href.nodup_iff]
    refine List.Nodup.append h3 (List.nodup_singleton _) ?_
    intro r hr hb
    rw [List.mem_singleton] at hb
    rw [hb] at hr
    exact hnew hr
  · intro r hr
    rcases List.mem_append.mp (href.mem_iff.mp hr) with h | h
    · obtain ⟨i, hi, hri⟩ := h4 r h
      exact ⟨i, List.mem_append_left _ hi, hri⟩
    · exact ⟨c.ID, List.mem_append_right _ (List.mem_singleton_self _), List.mem_singleton.mp h⟩

/-- One call of `createChannelNode` on the top node keeps the invariant. -/
theorem AttachedOnce_createChannelNode (env : Env) (nx : Nat) (used : List Snowflake)
    (t : TreeNode) (c : Channel) (h : AttachedOnce nx used t) (hc : c.ID ∉ used) :
    AttachedOnce (createChannelNode env nx t c).2 (used ++ [c.ID])
      (createChannelNode env nx t c).1 := by
  unfold createChannelNode
  split
  · exact AttachedOnce_mono nx used _ t h (fun i hi => List.mem_append_left _ hi)
  · exact AttachedOnce_grow env nx used t _ c h hc (GrowsBy_AddChild (newChannelNode env nx c) rfl t)

theorem AttachedOnce_createTopLevel (env : Env) (chs : List Channel) :
    ∀ (used : List Snowflake) (nx : Nat) (t : TreeNode), AttachedOnce nx used t →
      (∀ c ∈ topLevelChannels chs, c.ID ∉ used) →
      ((topLevelChannels chs).map (fun c => c.ID)).Nodup →
      AttachedOnce (createTopLevel env nx t chs).2
        (used ++ (topLevelChannels chs).map (fun c => c.ID)) (createTopLevel env nx t chs).1 := by
  induction chs with
  | nil =>
    intro used nx t h _ _
    simpa [createTopLevel, topLevelChannels] using h
  | cons c rest ih =>
    intro used nx t h hdis hnd
    simp only [createTopLevel]
    by_cases hcond : c.Type_ ≠ ChannelType.GuildCategory ∧ ¬ c.ParentID.IsValid = true
    · have hf : topLevelChannels (c :: rest) = c :: topLevelChannels rest := by
        unfold topLevelChannels
        rw [List.filter_cons_of_pos (by simpa using hcond)]
      rw [hf] at hdis hnd ⊢
      rw [if_pos hcond]
      simp only [List.map_cons, List.nodup_cons] at hnd
      have hstep := AttachedOnce_createChannelNode env nx used t c h
        (hdis c (List.mem_cons_self _ _))
      have := ih (used ++ [c.ID]) _ _ hstep
        (fun d hd hin => by
          rcases List.mem_append.mp hin with h1 | h1
          · exact hdis d (List.mem_cons_of_mem _ hd) h1
          · rw [List.mem_singleton] at h1
            exact hnd.1 (by rw [← h1]; exact List.mem_map_of_mem _ hd))
        hnd.2
      simpa [List.append_assoc] using this
    · have hf : topLevelChannels (c :: rest) = topLevelChannels rest := by
        unfold topLevelChannels
        rw [List.filter_cons_of_neg (by simpa using hcond)]
      rw [hf] at hdis hnd ⊢
      rw [if_neg hcond]
      exact ih used nx t h hdis hnd

end Discordo

namespace Discordo
open TreeNode

theorem AttachedOnce_createCategories (env : Env) (all chs : List Channel) :
    ∀ (used : List Snowflake) (nx : Nat) (t : TreeNode), AttachedOnce nx used t →
      (∀ c ∈ chs.filter (fun c =>
          decide (c.Type_ = ChannelType.GuildCategory ∧ hasNested all c = true)), c.ID ∉ used) →
      ((chs.filter (fun c =>
          decide (c.Type_ = ChannelType.GuildCategory ∧ hasNested all c = true))).map
        (fun c => c.ID)).Nodup →
      AttachedOnce (createCategories env all nx t chs).2
        (used ++ (chs.filter (fun c =>
          decide (c.Type_ = ChannelType.GuildCategory ∧ hasNested all c = true))).map
            (fun c => c.ID))
        (createCategories env all nx t chs).1 := by
  induction chs with
  | nil =>
    intro used nx t h _ _
    simpa [createCategories] using h
  | cons c rest ih =>
    intro used nx t h hdis hnd
    simp only [createCategories]
    by_cases hcond : c.Type_ = ChannelType.GuildCategory ∧ hasNested all c = true
    · rw [List.filter_cons_of_pos (by simpa using hcond)] at hdis hnd ⊢
      rw [if_pos hcond]
      simp only [List.map_cons, List.nodup_cons] at hnd
      have hstep := AttachedOnce_createChannelNode env nx used t c h
        (hdis c (List.mem_cons_self _ _))
      have := ih (used ++ [c.ID]) _ _ hstep
        (fun d hd hin => by
          rcases List.mem_append.mp hin with h1 | h1
          · exact hdis d (List.mem_cons_of_mem _ hd) h1
          · rw [List.mem_singleton] at h1
            exact hnd.1 (by rw [← h1]; exact List.mem_map_of_mem _ hd))
        hnd.2
      simpa [List.append_assoc] using this
    · rw [List.filter_cons_of_neg (by simpa using hcond)] at hdis hnd ⊢
      rw [if_neg hcond]
      exact ih used nx t h hdis hnd

theorem AttachedOnce_createNested (env : Env) (chs : List Channel) :
    ∀ (used : List Snowflake) (nx : Nat) (t : TreeNode), AttachedOnce nx used t →
      (∀ c ∈ chs.filter (fun c => c.ParentID.IsValid), c.ID ∉ used) →
      ((chs.filter (fun c => c.ParentID.IsValid)).map (fun c => c.ID)).Nodup →
      AttachedOnce (createNested env nx t chs).2
        (used ++ (chs.filter (fun c => c.ParentID.IsValid)).map (fun c => c.ID))
        (createNested env nx t chs).1 := by
  induction chs with
  | nil =>
    intro used nx t h _ _
    simpa [createNested] using h
  | cons c rest ih =>
    intro used nx t h hdis hnd
    simp only [createNested]
    by_cases hcond : c.ParentID.IsValid = true
    · have hfil : (c :: rest).filter (fun c => c.ParentID.IsValid) =
          c :: rest.filter (fun c => c.ParentID.IsValid) := by
        simp [List.filter, hcond]
      rw [hfil] at hdis hnd ⊢
      rw [if_pos hcond]
      simp only [List.map_cons, List.nodup_cons] at hnd
      have hc0 := hdis c (List.mem_cons_self _ _)
      have hrest : ∀ d ∈ rest.filter (fun c => c.ParentID.IsValid), d.ID ∉ used ++ [c.ID] := by
        intro d hd hin
        rcases List.mem_append.mp hin with h1 | h1
        · exact hdis d (List.mem_cons_of_mem _ hd) h1
        · rw [List.mem_singleton] at h1
          exact hnd.1 (by rw [← h1]; exact List.mem_map_of_mem _ hd)
      cases hp : findParent t c.ParentID with
      | none =>
        simp only []
        have := ih (used ++ [c.ID]) nx t
          (AttachedOnce_mono nx used _ t h (fun i hi => List.mem_append_left _ hi)) hrest hnd.2
        simpa [List.append_assoc] using this
      | some p =>
        simp only []
        obtain ⟨n0, hn0, hn0a, _⟩ := findParent_some t c.ParentID p hp
        have hpm : p ∈ t.preorder.map addr := by
          rw [← hn0a]; exact List.mem_map_of_mem _ hn0
        have hstep : AttachedOnce (createChannelNode env nx t c).2 (used ++ [c.ID])
            (modifyAt p (fun m => (createChannelNode env nx m c).1) t) := by
          rw [createChannelNode_fun]
          unfold createChannelNode
          cases hh : channelHidden env c
          · simp only [Bool.false_eq_true, if_false]
            exact AttachedOnce_grow env nx used t _ c h hc0
              (GrowsBy_modifyAt p (newChannelNode env nx c) rfl t h.1 hpm)
          · simp only [if_true]
            rw [modifyAt_id]
            exact AttachedOnce_mono nx used _ t h (fun i hi => List.mem_append_left _ hi)
        have := ih (used ++ [c.ID]) _ _ hstep hrest hnd.2
        simpa [List.append_assoc] using this
    · have hfil : (c :: rest).filter (fun c => c.ParentID.IsValid) =
          rest.filter (fun c => c.ParentID.IsValid) := by
        simp [List.filter, hcond]
      rw [hfil] at hdis hnd ⊢
      rw [if_neg hcond]
      exact ih used nx t h hdis hnd

end Discordo

namespace Discordo
open TreeNode

/-- The method `IsValid` on the two excluded numbers and on two others: zero
and the null snowflake are not valid, 1 and 2 ^ 63 are. -/
theorem IsValid_values :
    Snowflake.IsValid 0 = false ∧ Snowflake.IsValid NullSnowflake = false ∧
      Snowflake.IsValid 1 = true ∧ Snowflake.IsValid (2 ^ 63) = true := by
  decide

/-- The method `collapseParentNode` reads the level stored in the parent: on the
first result of the filtering state it changes nothing while the result node
still has its level 0, and collapses and selects the result node once the tree
view has stored the levels. -/
theorem collapseParentNode_stored_level :
    (collapseParentNode demoFilteringStale (some 7)).map
        (fun g => (g.currentNode, (g.deref 1).map IsExpanded)) = some (some 7, some true) ∧
    (collapseParentNode demoFilteringKeys (some 7)).map
        (fun g => (g.currentNode, (g.deref 1).map IsExpanded)) = some (some 1, some false) ∧
    (step demoEnv demoFilteringStale (Input.draw demoFilteringKeys.level)).map
        (fun g => (g.level 2, g.level 1, g.level 7)) = some (0, 1, 2) := by
  decide

end Discordo

/-! ## Theorems -/

namespace Discordo
open TreeNode

/-- C1, the code at the example of the claim: over the hierarchy with the
channel nodes "general", "General-Voice" and "random", `applyFilter` with the
query "gen" leaves `resultNode` without children and `filteredNodes` empty,
where the claim names two clones; the walk visits all five nodes. -/
theorem applyFilter_gen_finds_nothing :
    (applyFilter demoEnv (demoFiltering "gen")).resultChildren.length = 0 ∧
    (applyFilter demoEnv (demoFiltering "gen")).filteredNodes = [] ∧
    (demoFiltering "gen").originalRoot.preorder.length = 5 ∧
    ((demoFiltering "gen").originalRoot.preorder.filter (fun n =>
        stringsContains (asciiToLower n.GetText) (asciiToLower (goString "gen")))).map addr
      = [4, 5] := by
  decide

/-- C3, the code at a `resultNode` with three children: after `applyFilter`
(with the empty query or with "xyz") and after `clearResultNode` the second
of the prior children is still a child of `resultNode` while `filteredNodes`
is empty. -/
theorem clearResultNode_leaves_child :
    (demoThreeResults []).resultChildren.map addr = [7, 8, 9] ∧
    (clearResultNode (demoThreeResults [])).resultChildren.map addr = [8] ∧
    (clearResultNode (demoThreeResults [])).filteredNodes = [] ∧
    (applyFilter demoEnv (demoThreeResults [])).resultChildren.map addr = [8] ∧
    (applyFilter demoEnv (demoThreeResults [])).filteredNodes = [] ∧
    (applyFilter demoEnv (demoThreeResults (goString "xyz"))).resultChildren.map addr = [8] ∧
    (applyFilter demoEnv (demoThreeResults (goString "xyz"))).filteredNodes = [] := by
  decide

/-- C5, the code at the character U+00E9: typed into the empty query and
followed by Backspace, it leaves the query with the byte 0xC3, not empty, and
the state still filtering. -/
theorem backspace_after_e_acute :
    ((onInputCapture demoEnv (demoFiltering "") (runeEvent 233)).bind
        (fun r => onInputCapture demoEnv r.1 backspaceEvent)).map
      (fun r => (r.1.filterQuery, r.1.isFiltering)) = some ([0xC3], true) := by
  decide

end Discordo

namespace Discordo
open TreeNode

theorem ModeInvariant_of_sameMode {a b : guildsTree} (h : SameMode a b) (ha : ModeInvariant a) :
    ModeInvariant b := by
  unfold ModeInvariant at *
  obtain ⟨h1, h2, h3, h4⟩ := h
  rw [h1, h2, h3, h4]
  exact ha

theorem clearFilter_modeInvariant (gt : guildsTree)
    (h : gt.originalRoot.addr ≠ gt.tempRoot.addr) : ModeInvariant (clearFilter gt) := by
  have hc := clearResultNode_sameMode
    { gt with isFiltering := false, filterQuery := [], root := gt.originalRoot.addr }
  have he := emit_sameMode
    { clearResultNode { gt with isFiltering := false, filterQuery := [],
                                root := gt.originalRoot.addr } with title := "" }
    [Effect.focusTree, Effect.draw]
  obtain ⟨h1, h2, h3, h4⟩ := SameMode.trans (SameMode.trans hc ⟨rfl, rfl, rfl, rfl⟩) he
  unfold ModeInvariant
  show (clearFilter gt).originalRoot.addr ≠ (clearFilter gt).tempRoot.addr ∧ _
  unfold clearFilter
  rw [h1, h2, h3, h4]
  simp [h]

theorem enterFilterMode_modeInvariant (gt : guildsTree)
    (h : gt.originalRoot.addr ≠ gt.tempRoot.addr) : ModeInvariant (enterFilterMode gt) := by
  have hc := clearResultNode_sameMode
    { gt with isFiltering := true, filterQuery := [], root := gt.tempRoot.addr }
  have he := emit_sameMode
    { clearResultNode { gt with isFiltering := true, filterQuery := [],
                                root := gt.tempRoot.addr } with
      title := "Filtering (ESC to cancel)" }
    [Effect.focusTree, Effect.draw]
  obtain ⟨h1, h2, h3, h4⟩ := SameMode.trans (SameMode.trans hc ⟨rfl, rfl, rfl, rfl⟩) he
  unfold ModeInvariant
  show (enterFilterMode gt).originalRoot.addr ≠ (enterFilterMode gt).tempRoot.addr ∧ _
  unfold enterFilterMode
  rw [h1, h2, h3, h4]
  simp [h]

theorem filterInput_modeInvariant (env : Env) (gt : guildsTree) (event : EventKey)
    (g : guildsTree) (ev : Option EventKey) (hinv : ModeInvariant gt)
    (h : filterInput env gt event = some (g, ev)) : ModeInvariant g := by
  unfold filterInput at h
  split at h
  · simp only [Option.some.injEq, Prod.mk.injEq] at h
    rw [← h.1]
    exact clearFilter_modeInvariant _
      (ModeInvariant_of_sameMode (enterSelectedChannel_sameMode env gt) hinv).1
  · simp only [Option.some.injEq, Prod.mk.injEq] at h
    rw [← h.1]
    exact clearFilter_modeInvariant _ hinv.1
  all_goals
    repeat' split at h
    all_goals first
      | (simp only [Option.some.injEq, Prod.mk.injEq] at h
         rw [← h.1]
         first
          | exact clearFilter_modeInvariant _ hinv.1
          | exact hinv
          | exact ModeInvariant_of_sameMode
              (SameMode.trans ⟨rfl, rfl, rfl, rfl⟩ (applyFilter_sameMode env _)) hinv)
      | cases h

theorem onInputCapture_modeInvariant (env : Env) (gt : guildsTree) (event : EventKey)
    (g : guildsTree) (ev : Option EventKey) (hinv : ModeInvariant gt)
    (h : onInputCapture env gt event = some (g, ev)) : ModeInvariant g := by
  unfold onInputCapture at h
  split at h
  · simp only [Option.some.injEq, Prod.mk.injEq] at h
    rw [← h.1]
    unfold toggleFilterMode
    split
    · exact clearFilter_modeInvariant _ hinv.1
    · exact enterFilterMode_modeInvariant _ hinv.1
  · split at h
    · split at h
      · rename_i res hres
        cases h
        exact filterInput_modeInvariant env gt event g ev hinv hres
      · exact ModeInvariant_of_sameMode (bindings_sameMode gt event g ev h) hinv
    · exact ModeInvariant_of_sameMode (bindings_sameMode gt event g ev h) hinv

theorem step_modeInvariant (env : Env) (gt : guildsTree) (i : Input) (g : guildsTree)
    (hinv : ModeInvariant gt) (h : step env gt i = some g) : ModeInvariant g := by
  cases i with
  | key event =>
    simp only [step] at h
    cases hc : onInputCapture env gt event with
    | none => rw [hc] at h; cases h
    | some res =>
      rw [hc] at h
      simp only [Option.map_some', Option.some.injEq] at h
      rw [← h]
      exact onInputCapture_modeInvariant env gt event res.1 res.2 hinv hc
  | cursor node =>
    simp only [step, Option.some.injEq] at h
    rw [← h]; exact hinv
  | selected node =>
    simp only [step, Option.some.injEq] at h
    rw [← h]; exact ModeInvariant_of_sameMode (onSelectedAt_sameMode env gt node) hinv
  | folder f =>
    simp only [step, Option.some.injEq] at h
    rw [← h]; exact ModeInvariant_of_sameMode (createFolderNode_sameMode env gt f) hinv
  | draw level =>
    simp only [step, Option.some.injEq] at h
    rw [← h]; exact hinv

theorem run_modeInvariant (env : Env) (inputs : List Input) :
    ∀ (gt g : guildsTree), ModeInvariant gt → run env gt inputs = some g → ModeInvariant g := by
  induction inputs with
  | nil => intro gt g hinv h; simp only [run, Option.some.injEq] at h; rw [← h]; exact hinv
  | cons i rest ih =>
    intro gt g hinv h
    simp only [run] at h
    split at h
    · rename_i g1 h1
      exact ih g1 g (step_modeInvariant env gt i g1 hinv h1) h
    · cases h

/-- C2: after every sequence of inputs from the state `newGuildsTree` builds
(key events of every kind, and also cursor moves, selections and added
folders), the display root is one of `originalRoot` and `tempRoot`, which are
two different nodes, and it is `tempRoot` exactly when `isFiltering` is set. -/
theorem mode_invariant (env : Env) (cfg : Config) (inputs : List Input) (gt : guildsTree)
    (h : run env (newGuildsTree cfg) inputs = some gt) : ModeInvariant gt :=
  run_modeInvariant env inputs (newGuildsTree cfg) gt
    ⟨fun h0 => absurd (show (0 : Nat) = 2 from h0) (by decide), Or.inl rfl,
      fun h0 => absurd (show (0 : Nat) = 2 from h0) (by decide),
      fun h0 => absurd (show false = true from h0) (by decide)⟩ h

/-- The mode invariant after Ctrl-F, the characters g and e, Enter, Ctrl-F, Backspace. -/
theorem mode_invariant_witness :
    ∃ gt, run demoEnv (newGuildsTree demoConfig) demoInputs = some gt ∧
      ModeInvariant gt ∧ gt.isFiltering = false :=
  ⟨_, rfl, mode_invariant demoEnv demoConfig demoInputs _ rfl, rfl⟩

end Discordo

namespace Discordo
open TreeNode

namespace TreeNode

mutual
theorem modifyAt_of_avoids (p : Nat) (f : TreeNode → TreeNode) :
    ∀ t : TreeNode, (∀ m ∈ t.preorder, m.addr ≠ p) → modifyAt p f t = t
  | mk a tx r st e cs, h => by
    have ha : a ≠ p := h (mk a tx r st e cs) (by simp [preorder])
    have hcs : modifyAtList p f cs = cs :=
      modifyAtList_of_avoids p f cs (fun m hm => h m (by simp [preorder, hm]))
    simp only [modifyAt, hcs, if_neg ha]
theorem modifyAtList_of_avoids (p : Nat) (f : TreeNode → TreeNode) :
    ∀ ts : List TreeNode, (∀ m ∈ preorderList ts, m.addr ≠ p) → modifyAtList p f ts = ts
  | [], _ => rfl
  | c :: cs, h => by
    simp only [modifyAtList]
    rw [modifyAt_of_avoids p f c (fun m hm => h m (by simp [preorderList, hm])),
      modifyAtList_of_avoids p f cs (fun m hm => h m (by simp [preorderList, hm]))]
end

end TreeNode

/-- The second state has the original hierarchy and the result pointer of the first. -/
theorem update_resultNode_original (gt : guildsTree) (f : TreeNode → TreeNode)
    (h : gt.originalRoot.Avoids gt.resultNode) :
    (gt.update gt.resultNode f).originalRoot = gt.originalRoot :=
  modifyAt_of_avoids _ f _ h

theorem clearResultNode_original (gt : guildsTree) (h : gt.originalRoot.Avoids gt.resultNode) :
    (clearResultNode gt).originalRoot = gt.originalRoot ∧
      (clearResultNode gt).resultNode = gt.resultNode :=
  ⟨update_resultNode_original gt _ h, rfl⟩

theorem applyFilterVisit_original (env : Env) (query : GoString) (gt : guildsTree)
    (node : TreeNode) (p : Option TreeNode) (l : Nat) (h : gt.originalRoot.Avoids gt.resultNode) :
    (applyFilterVisit env query gt node p l).1.originalRoot = gt.originalRoot ∧
      (applyFilterVisit env query gt node p l).1.resultNode = gt.resultNode := by
  unfold applyFilterVisit
  repeat' split
  all_goals first
    | exact ⟨rfl, rfl⟩
    | exact ⟨update_resultNode_original gt _ h, rfl⟩

theorem applyFilter_original (env : Env) (gt : guildsTree)
    (h : gt.originalRoot.Avoids gt.resultNode) :
    (applyFilter env gt).originalRoot = gt.originalRoot ∧
      (applyFilter env gt).resultNode = gt.resultNode := by
  have hc := clearResultNode_original gt h
  unfold applyFilter
  dsimp only
  split
  · exact hc
  · have hw := Walk_keeps
      (fun s : guildsTree => s.originalRoot = gt.originalRoot ∧ s.resultNode = gt.resultNode)
      (applyFilterVisit env (env.ToLower (clearResultNode gt).filterQuery))
      (fun s n p l hs => by
        have := applyFilterVisit_original env (env.ToLower (clearResultNode gt).filterQuery)
          s n p l (by rw [hs.1, hs.2]; exact h)
        exact ⟨this.1.trans hs.1, this.2.trans hs.2⟩)
      (clearResultNode gt).originalRoot (clearResultNode gt) none 0 hc
    split
    · refine ⟨?_, hw.2⟩
      refine Eq.trans ?_ hw.1
      exact modifyAt_of_avoids _ _ _ (by
        show TreeNode.Avoids _ _
        rw [hw.1, hw.2]; exact h)
    · exact hw

theorem FilterOp.apply_original (env : Env) (gt : guildsTree) (op : FilterOp)
    (h : gt.originalRoot.Avoids gt.resultNode) :
    (op.apply env gt).originalRoot = gt.originalRoot ∧
      (op.apply env gt).resultNode = gt.resultNode := by
  cases op with
  | enterFilterMode =>
    exact clearResultNode_original
      { gt with isFiltering := true, filterQuery := [], root := gt.tempRoot.addr } h
  | applyFilter query => exact applyFilter_original env { gt with filterQuery := query } h
  | clearResultNode => exact clearResultNode_original gt h
  | clearFilter =>
    exact clearResultNode_original
      { gt with isFiltering := false, filterQuery := [], root := gt.originalRoot.addr } h

/-- C4: when `resultNode` is not a node of the original hierarchy, every
sequence of `enterFilterMode`, `applyFilter` (on any query), `clearResultNode`
and `clearFilter` leaves the subtree of `originalRoot` as it was: the same
nodes with the same texts, references and children in the same order. -/
theorem filtering_keeps_original (env : Env) (ops : List FilterOp) :
    ∀ gt : guildsTree, gt.originalRoot.Avoids gt.resultNode →
      (runOps env gt ops).originalRoot = gt.originalRoot := by
  induction ops with
  | nil => intro gt _; rfl
  | cons op rest ih =>
    intro gt h
    have h1 := FilterOp.apply_original env gt op h
    show (runOps env (op.apply env gt) rest).originalRoot = gt.originalRoot
    rw [ih (op.apply env gt) (by rw [h1.1, h1.2]; exact h), h1.1]

/-- The frame property on the example hierarchy, for two filter and clear cycles. -/
theorem filtering_keeps_original_witness :
    (runOps demoEnv (demoFiltering "gen")
        [FilterOp.applyFilter (goString "gen"), FilterOp.clearFilter, FilterOp.enterFilterMode,
         FilterOp.applyFilter (goString "ran"), FilterOp.clearResultNode,
         FilterOp.clearFilter]).originalRoot = demoHierarchy :=
  filtering_keeps_original demoEnv _ (demoFiltering "gen") (by unfold TreeNode.Avoids; decide)

end Discordo

namespace Discordo
open TreeNode

/-- C6 as stated fails: on a guild node without children, two calls of
`onSelected` in a row fetch the channel list twice when the list is empty,
and also when it holds one channel the viewer may not view. -/
theorem onSelected_twice_refetches :
    fetchesOfTwice (onSelectedTwice (demoEnvChannels [] true) demoConfig 10 0 0 demoGuildNode) = 2 ∧
    fetchesOfTwice (onSelectedTwice
      (demoEnvChannels [demoChannel 1 0 ChannelType.GuildText "a"] false)
      demoConfig 10 0 0 demoGuildNode) = 2 := by
  decide

/-- C6 amended: on a guild node without children whose channel list is
fetched with success, when the first call of `onSelected` attaches at least
one child, two calls in a row fetch the channel list once, the second call
makes no fetch at all and only negates the expanded flag of the node; when the
first call attaches no child, the two calls fetch the channel list twice. -/
theorem onSelected_twice_fetches (env : Env) (cfg : Config) (next : Nat) (selC selG : Snowflake)
    (node : TreeNode) (g : Snowflake) (channels : List Channel)
    (hc : node.GetChildren = []) (hr : node.GetReference = Reference.GuildID g)
    (hf : env.CabinetChannels g = some channels) :
    let r := onSelectedTwice env cfg next selC selG node
    (r.1.node.GetChildren ≠ [] →
      fetchesOfTwice r = 1 ∧ r.2.effects.countP Effect.isFetch = 0 ∧
      r.2.node = r.1.node.SetExpanded (!r.1.node.IsExpanded) ∧ r.2.next = r.1.next ∧
      r.2.selectedChannelID = selC ∧ r.2.selectedGuildID = selG) ∧
    (r.1.node.GetChildren = [] → fetchesOfTwice r = 2) := by
  have h1 : onSelected env cfg next selC selG node =
      { node := (createChannelNodes env next node
          (env.sortSlice (fun a b => decide (a.Position < b.Position)) channels)).1,
        next := (createChannelNodes env next node
          (env.sortSlice (fun a b => decide (a.Position < b.Position)) channels)).2,
        selectedChannelID := selC, selectedGuildID := selG,
        effects := [Effect.messageInputReset, Effect.subscribe g, Effect.fetchChannels g] } := by
    unfold onSelected
    simp only [hc, List.length_nil, ne_eq, not_true_eq_false, if_false, hr, hf]
  intro r
  have hr1 : r.1 = onSelected env cfg next selC selG node := rfl
  have hr2 : r.2 = onSelected env cfg r.1.next r.1.selectedChannelID r.1.selectedGuildID
      r.1.node := rfl
  constructor
  · intro hne
    have hlen : r.1.node.GetChildren.length ≠ 0 := by
      intro h0; exact hne (List.length_eq_zero.mp h0)
    have h2 : r.2 = Selected.mk (r.1.node.SetExpanded (!r.1.node.IsExpanded)) r.1.next
        r.1.selectedChannelID r.1.selectedGuildID [Effect.messageInputReset] := by
      rw [hr2]; unfold onSelected; rw [if_pos hlen]
    have hfe : r.1.effects = [Effect.messageInputReset, Effect.subscribe g,
        Effect.fetchChannels g] := by rw [hr1, h1]
    have hsc : r.1.selectedChannelID = selC := by rw [hr1, h1]
    have hsg : r.1.selectedGuildID = selG := by rw [hr1, h1]
    refine ⟨?_, ?_, ?_, ?_, ?_, ?_⟩
    · unfold fetchesOfTwice; rw [hfe, h2]; rfl
    · rw [h2]; rfl
    · rw [h2]
    · rw [h2]
    · rw [h2]; exact hsc
    · rw [h2]; exact hsg
  · intro he
    have hlen : ¬ (r.1.node.GetChildren.length ≠ 0) := by rw [he]; simp
    have href : r.1.node.GetReference = Reference.GuildID g := by
      rw [hr1, h1]; show (createChannelNodes env next node _).1.GetReference = _
      rw [createChannelNodes_ref, hr]
    have hfe : r.1.effects = [Effect.messageInputReset, Effect.subscribe g,
        Effect.fetchChannels g] := by rw [hr1, h1]
    have h2 : r.2.effects = [Effect.messageInputReset, Effect.subscribe g,
        Effect.fetchChannels g] := by
      rw [hr2]; unfold onSelected; rw [if_neg hlen]
      simp only [href, hf]
    unfold fetchesOfTwice; rw [hfe, h2]; rfl

/-- The amended C6 on a guild whose list holds one channel in view. -/
theorem onSelected_twice_fetches_witness :
    fetchesOfTwice (onSelectedTwice
      (demoEnvChannels [demoChannel 1 0 ChannelType.GuildText "a"] true)
      demoConfig 10 0 0 demoGuildNode) = 1 :=
  ((onSelected_twice_fetches (demoEnvChannels [demoChannel 1 0 ChannelType.GuildText "a"] true)
    demoConfig 10 0 0 demoGuildNode 100 [demoChannel 1 0 ChannelType.GuildText "a"]
    rfl rfl rfl).1 (fun h => absurd (congrArg List.length h) (by decide))).1

end Discordo

namespace Discordo
open TreeNode

/-- C7 as stated fails: a category channel that no channel names as parent is
attached below the node when it has a valid parent id of its own (first list),
and a node references it when a text channel of the list has the same id
(second list). -/
theorem unnamed_category_attached :
    (preorderList (createChannelNodes demoEnv 10 demoGuildNode
        [demoChannel 1 0 ChannelType.GuildText "top",
         demoChannel 2 1 ChannelType.GuildCategory "cat"]).1.GetChildren).map GetReference
      = [Reference.ChannelID 1, Reference.ChannelID 2] ∧
    hasNested [demoChannel 1 0 ChannelType.GuildText "top",
         demoChannel 2 1 ChannelType.GuildCategory "cat"]
      (demoChannel 2 1 ChannelType.GuildCategory "cat") = false ∧
    (preorderList (createChannelNodes demoEnv 10 demoGuildNode
        [demoChannel 5 0 ChannelType.GuildText "text",
         demoChannel 5 0 ChannelType.GuildCategory "cat"]).1.GetChildren).map GetReference
      = [Reference.ChannelID 5] ∧
    hasNested [demoChannel 5 0 ChannelType.GuildText "text",
         demoChannel 5 0 ChannelType.GuildCategory "cat"]
      (demoChannel 5 0 ChannelType.GuildCategory "cat") = false := by
  decide

/-- C7 amended: for every channel list in which no category channel has a
valid parent id and no channel that is not a category carries the id of a
category channel, after `createChannelNodes` on a node without children no
node below that node references a category channel of the list that no channel
of the list names as its parent. -/
theorem unnamed_category_suppressed (env : Env) (next : Nat) (node : TreeNode)
    (channels : List Channel) (hc : node.GetChildren = [])
    (hcat : ∀ c ∈ channels, c.Type_ = ChannelType.GuildCategory → c.ParentID.IsValid = false)
    (hid : ∀ c ∈ channels, ∀ d ∈ channels, c.Type_ = ChannelType.GuildCategory → d.ID = c.ID →
      d.Type_ = ChannelType.GuildCategory) :
    ∀ c ∈ channels, c.Type_ = ChannelType.GuildCategory → hasNested channels c = false →
      ∀ m ∈ preorderList (createChannelNodes env next node channels).1.GetChildren,
        m.GetReference ≠ Reference.ChannelID c.ID := by
  intro c hcm hty hnn m hm href
  have hb := (Below_iff_preorder _ _).mp (Below_createChannelNodes env next node channels hc) m hm
  obtain ⟨d, hd, hl, _, ha⟩ := hb
  have hdid : d.ID = c.ID := by
    have h2 : m.GetReference = Reference.ChannelID d.ID := congrArg Prod.snd hl
    rw [href] at h2
    exact (Reference.ChannelID.inj h2).symm
  have hdty := hid c hcm d hd hty hdid
  have hdp := hcat d hd hdty
  have hnd : hasNested channels d = false := by
    unfold hasNested at hnn ⊢
    rw [hdid]; exact hnn
  rcases ha with ⟨h1, _⟩ | ⟨_, h2⟩ | h3
  · exact h1 hdty
  · rw [hnd] at h2; cases h2
  · rw [hdp] at h3; cases h3

/-- The amended C7 on a list with a category that has a child and one that
has none: no node below the guild node references the second. -/
theorem unnamed_category_suppressed_witness :
    (preorderList (createChannelNodes demoEnv 10 demoGuildNode
        [demoChannel 1 0 ChannelType.GuildCategory "catA",
         demoChannel 2 1 ChannelType.GuildText "chA1",
         demoChannel 3 0 ChannelType.GuildCategory "catB"]).1.GetChildren).all
      (fun m => decide (m.GetReference ≠ Reference.ChannelID 3)) = true :=
  List.all_eq_true.mpr (fun m hm => decide_eq_true
    (unnamed_category_suppressed demoEnv 10 demoGuildNode _ rfl (by decide) (by decide)
      (demoChannel 3 0 ChannelType.GuildCategory "catB") (by decide) rfl (by decide) m hm))

end Discordo

namespace Discordo
open TreeNode

theorem BelowList_newLeaves (env : Env) (lo nx : Nat) (refOf : Nat → Reference)
    (cs : List Channel) :
    ∀ a : Nat, lo ≤ a → a + cs.length ≤ nx →
      (∀ i c, cs.get? i = some c → refOf (a + i) = Reference.ChannelID c.ID) →
      BelowList (NestedNode env lo nx refOf []) (newLeaves env a cs) := by
  induction cs with
  | nil => intro a _ _ _; trivial
  | cons c rest ih =>
    intro a hlo hnx href
    simp only [List.length_cons] at hnx
    refine ⟨⟨hlo, ?_, ?_, List.nil_sublist _⟩, ?_, ?_⟩
    · show a < nx; omega
    · show Reference.ChannelID c.ID = refOf a
      exact (href 0 c rfl).symm
    · rw [Below_eq]; trivial
    · refine ih (a + 1) (by omega) (by omega) ?_
      intro i d hd
      have := href (i + 1) d (by simpa using hd)
      rw [← this]
      congr 1
      omega

theorem setChildren_facts (n : TreeNode) (cs : List TreeNode) :
    (n.setChildren cs).addr = n.addr ∧ (n.setChildren cs).GetReference = n.GetReference ∧
      (n.setChildren cs).GetChildren = cs := by
  cases n; exact ⟨rfl, rfl, rfl⟩

/-- The categories the second loop of `createChannelNodes` hands over are the
categories of the list that some channel of the list names as its parent. -/
theorem namedCategories_eq (channels : List Channel) :
    namedCategories channels = parentCategories channels := by
  unfold namedCategories parentCategories
  apply List.filter_congr
  intro c _
  have h : hasNested channels c = true ↔ ∃ nested ∈ channels, nested.ParentID = c.ID := by
    unfold hasNested
    rw [List.any_eq_true]
    constructor
    · rintro ⟨x, hx, hb⟩; exact ⟨x, hx, by simpa using hb⟩
    · rintro ⟨x, hx, hb⟩; exact ⟨x, hx, by simpa using hb⟩
  simp only [h]

/-- C8: on a node without children whose reference is not the channel id that
a channel of the list holds as valid parent id (a guild node is one), with
every channel of the list in view, `createChannelNodes` leaves as children of
the node, in this order, the nodes of the channels that are no category and
have no valid parent id, in list order, then the nodes of the categories that
a channel of the list names as parent, in list order; every channel whose
valid parent id is the id of such a category is attached as a child of a node
referencing that category; and the children of every node below show, in list
order, channels whose valid parent id is the reference of that node.  The new
nodes get addresses from `next` on, which lie above the address of the node. -/
theorem createChannelNodes_shape (env : Env) (next : Nat) (node : TreeNode)
    (channels : List Channel) (hc : node.GetChildren = [])
    (hr : ∀ ch ∈ channels, ch.ParentID.IsValid = true →
      node.GetReference ≠ Reference.ChannelID ch.ParentID)
    (hfresh : node.addr < next)
    (hv : ∀ c ∈ channels, env.HasPermissions c.ID Permission.ViewChannel = true) :
    (createChannelNodes env next node channels).1.GetChildren.map label =
        (topLevelChannels channels ++ parentCategories channels).map (channelLabel env) ∧
    (∀ c ∈ parentCategories channels, ∀ ch ∈ channels, ch.ParentID.IsValid = true →
      ch.ParentID = c.ID →
      (createChannelNodes env next node channels).1.HasChildUnder (Reference.ChannelID c.ID)
        (channelLabel env ch)) ∧
    (∀ m ∈ preorderList (createChannelNodes env next node channels).1.GetChildren,
      (m.GetChildren.map label).Sublist
        ((channelsUnder channels m.GetReference).map (channelLabel env))) := by
  rw [← namedCategories_eq channels]
  have hvis : ∀ c ∈ channels, channelHidden env c = false := by
    intro c hcm
    unfold channelHidden
    simp [hv c hcm]
  have hfirst := firstLoops_eq env next node channels hc hvis
  have hcn : createChannelNodes env next node channels =
      createNested env (next + (topLevelChannels channels ++ namedCategories channels).length)
        (node.setChildren
          (newLeaves env next (topLevelChannels channels ++ namedCategories channels)))
        channels := by
    simp only [createChannelNodes]
    rw [hfirst]
  obtain ⟨hsa, hsr, hsc⟩ := setChildren_facts node
    (newLeaves env next (topLevelChannels channels ++ namedCategories channels))
  have hinit : NestedTree env next
      (next + (topLevelChannels channels ++ namedCategories channels).length) node.GetReference
      ((newLeaves env next (topLevelChannels channels ++ namedCategories channels)).map shallow)
      []
      (node.setChildren
        (newLeaves env next (topLevelChannels channels ++ namedCategories channels))) := by
    refine ⟨by rw [hsa]; exact hfresh, by omega, hsr, by rw [hsc], ?_, ?_⟩
    · refine ⟨fun x =>
        match (topLevelChannels channels ++ namedCategories channels).get? (x - next) with
        | some c => Reference.ChannelID c.ID
        | none => Reference.nil, ?_⟩
      rw [Below_eq, hsc]
      refine BelowList_newLeaves env next _ _ _ next (le_refl _) (le_refl _) ?_
      intro i c hi
      have : next + i - next = i := by omega
      simp only [this, hi]
    · intro ch hch; cases hch
  have hfin := createNested_tree env next node.GetReference _ channels [] _ _ hvis hr hinit
  rw [← hcn, List.nil_append] at hfin
  obtain ⟨_, _, _, f4, ⟨refOf, f5⟩, f6⟩ := hfin
  refine ⟨?_, ?_, ?_⟩
  · rw [map_label_of_map_shallow f4, newLeaves_map_label]
  · intro c hcm ch hch hvalid hpar
    rw [← hpar]
    refine f6 ch hch hvalid ?_
    have hlab : channelLabel env c ∈
        (newLeaves env next (topLevelChannels channels ++ namedCategories channels)).map label := by
      rw [newLeaves_map_label]
      exact List.mem_map_of_mem _ (List.mem_append_right _ hcm)
    obtain ⟨leaf, hleaf, hl⟩ := List.mem_map.mp hlab
    refine ⟨leaf.shallow, List.mem_map_of_mem _ hleaf, ?_⟩
    have h2 : leaf.GetReference = Reference.ChannelID c.ID := congrArg Prod.snd hl
    rw [hpar]; exact h2
  · intro m hm
    exact ((Below_iff_preorder _ _).mp f5 m hm).2.2.2

/-- C8 on the guild G with the list catA (category), chA1 (parent catA), chTop
(no parent): the children of G are chTop and catA, and chA1 is the child of
catA.  With the category catB more, which no channel names as parent, the
children of G are the same: catB gets no node. -/
theorem createChannelNodes_shape_witness :
    ((createChannelNodes demoEnv 10 demoGuildNode demoGuildChannels).1.GetChildren.map label =
        [channelLabel demoEnv (demoChannel 3 0 ChannelType.GuildText "chTop"),
         channelLabel demoEnv (demoChannel 1 0 ChannelType.GuildCategory "catA")] ∧
     (preorderList (createChannelNodes demoEnv 10 demoGuildNode demoGuildChannels).1.GetChildren).map
        (fun m => (m.GetReference, m.GetChildren.map GetReference)) =
      [(Reference.ChannelID 3, []), (Reference.ChannelID 1, [Reference.ChannelID 2]),
       (Reference.ChannelID 2, [])]) ∧
    ((createChannelNodes demoEnv 10 demoGuildNode demoGuildChannelsB).1.GetChildren.map label =
        [channelLabel demoEnv (demoChannel 3 0 ChannelType.GuildText "chTop"),
         channelLabel demoEnv (demoChannel 1 0 ChannelType.GuildCategory "catA")] ∧
     (preorderList (createChannelNodes demoEnv 10 demoGuildNode demoGuildChannelsB).1.GetChildren).map
        (fun m => (m.GetReference, m.GetChildren.map GetReference)) =
      [(Reference.ChannelID 3, []), (Reference.ChannelID 1, [Reference.ChannelID 2]),
       (Reference.ChannelID 2, [])]) :=
  ⟨⟨(createChannelNodes_shape demoEnv 10 demoGuildNode demoGuildChannels rfl
      (by decide) (by decide) (by decide)).1, by decide⟩,
   ⟨(createChannelNodes_shape demoEnv 10 demoGuildNode demoGuildChannelsB rfl
      (by decide) (by decide) (by decide)).1, by decide⟩⟩

/-- C8, the case left out: on the childless node that references the channel
7, with the one viewable text channel `ch` whose parent id is 7, no channel of
the list is without parent and no category is named as parent, yet
`createChannelNodes` attaches `ch` as a direct child of the node: the search of
the third loop starts at the node itself and finds it as the parent. -/
theorem createChannelNodes_channel_root :
    demoChannelRoot.GetChildren.length = 0 ∧
    ([demoChannel 1 7 ChannelType.GuildText "ch"].all
      (fun c => demoEnv.HasPermissions c.ID Permission.ViewChannel)) = true ∧
    ((topLevelChannels [demoChannel 1 7 ChannelType.GuildText "ch"] ++
        parentCategories [demoChannel 1 7 ChannelType.GuildText "ch"]).map
      (channelLabel demoEnv)) = [] ∧
    (createChannelNodes demoEnv 10 demoChannelRoot
        [demoChannel 1 7 ChannelType.GuildText "ch"]).1.GetChildren.map label =
      [channelLabel demoEnv (demoChannel 1 7 ChannelType.GuildText "ch")] := by
  decide

end Discordo

namespace Discordo
open TreeNode

theorem channelHidden_false_iff (env : Env) (c : Channel) :
    channelHidden env c = false ↔
      (c.Type_ = ChannelType.DirectMessage ∨ c.Type_ = ChannelType.GroupDM ∨
        env.HasPermissions c.ID Permission.ViewChannel = true) := by
  unfold channelHidden
  by_cases h1 : c.Type_ = ChannelType.DirectMessage <;>
    by_cases h2 : c.Type_ = ChannelType.GroupDM <;>
    cases h3 : env.HasPermissions c.ID Permission.ViewChannel <;> simp [h1, h2, h3]

theorem createPrivateChannels_children (env : Env) (chs : List Channel) :
    ∀ (next : Nat) (node : TreeNode),
      ((createPrivateChannels env next node chs).1.GetChildren.map label) =
        node.GetChildren.map label ++
          (chs.filter (fun c => !channelHidden env c)).map (channelLabel env) := by
  induction chs with
  | nil => intro next node; simp [createPrivateChannels]
  | cons c rest ih =>
    intro next node
    simp only [createPrivateChannels]
    rw [ih]
    unfold createChannelNode
    cases hh : channelHidden env c
    · simp [hh, newChannelNode_label]
    · simp [hh]

/-- C9: below a childless node, every node `createChannelNodes` attaches
references a channel of the list that is a direct message, a group DM or one
the viewer may view; the children the direct-message branch of `onSelected`
attaches are, in order, the nodes of the channels of its list that are such;
and `createChannelNode` on a channel that is neither leaves the node, and so
its children, as they were. -/
theorem attached_channels_viewable (env : Env) (next : Nat) (node : TreeNode)
    (channels : List Channel) (hc : node.GetChildren = []) :
    (∀ m ∈ preorderList (createChannelNodes env next node channels).1.GetChildren,
      ∃ c ∈ channels, m.GetReference = Reference.ChannelID c.ID ∧
        (c.Type_ = ChannelType.DirectMessage ∨ c.Type_ = ChannelType.GroupDM ∨
          env.HasPermissions c.ID Permission.ViewChannel = true)) ∧
    ((createPrivateChannels env next node channels).1.GetChildren.map label =
      (channels.filter (fun c => decide (c.Type_ = ChannelType.DirectMessage ∨
          c.Type_ = ChannelType.GroupDM ∨
          env.HasPermissions c.ID Permission.ViewChannel = true))).map (channelLabel env)) ∧
    (∀ (n : TreeNode) (ch : Channel), ch.Type_ ≠ ChannelType.DirectMessage →
      ch.Type_ ≠ ChannelType.GroupDM → env.HasPermissions ch.ID Permission.ViewChannel = false →
      createChannelNode env next n ch = (n, next)) := by
  refine ⟨?_, ?_, ?_⟩
  · intro m hm
    have hb := (Below_iff_preorder _ _).mp (Below_createChannelNodes env next node channels hc) m hm
    obtain ⟨d, hd, hl, hh, _⟩ := hb
    exact ⟨d, hd, congrArg Prod.snd hl, (channelHidden_false_iff env d).mp hh⟩
  · rw [createPrivateChannels_children, hc]
    simp only [List.map_nil, List.nil_append]
    congr 1
    apply List.filter_congr
    intro c _
    cases hh : channelHidden env c
    · have := (channelHidden_false_iff env c).mp hh
      simp [this]
    · have : ¬ (c.Type_ = ChannelType.DirectMessage ∨ c.Type_ = ChannelType.GroupDM ∨
          env.HasPermissions c.ID Permission.ViewChannel = true) := by
        intro h
        have := (channelHidden_false_iff env c).mpr h
        rw [hh] at this; cases this
      simp [this]
  · intro n ch h1 h2 h3
    unfold createChannelNode channelHidden
    simp [h1, h2, h3]

/-- C9 on a list of a channel in view, a direct message and a channel out of
view, under the example guild node: the direct-message loop attaches the
second only when nothing is in view. -/
theorem attached_channels_viewable_witness :
    (createPrivateChannels (demoEnvChannels [] false) 10 demoGuildNode
        [demoChannel 1 0 ChannelType.GuildText "a", demoChannel 2 0 ChannelType.DirectMessage "b",
         demoChannel 3 0 ChannelType.GuildVoice "c"]).1.GetChildren.map label =
      [channelLabel (demoEnvChannels [] false) (demoChannel 2 0 ChannelType.DirectMessage "b")] :=
  (attached_channels_viewable (demoEnvChannels [] false) 10 demoGuildNode
    [demoChannel 1 0 ChannelType.GuildText "a", demoChannel 2 0 ChannelType.DirectMessage "b",
     demoChannel 3 0 ChannelType.GuildVoice "c"] rfl).2.1

end Discordo

namespace Discordo
open TreeNode

theorem cloneNode_GetChildren (a : Nat) (n : TreeNode) : (cloneNode a n).GetChildren = [] := rfl

theorem cloneNode_GetReference (a : Nat) (n : TreeNode) :
    (cloneNode a n).GetReference = n.GetReference := rfl

theorem cloneNode_GetText (a : Nat) (n : TreeNode) : (cloneNode a n).GetText = n.GetText := rfl

/-- C10 as stated fails: for a channel node that has a child, `onSelected` on
the node only resets the composer and keeps `selectedChannelID`, while on its
clone it fetches and draws the messages and sets `selectedChannelID`. -/
theorem onSelected_clone_of_parent_differs :
    (onSelected demoEnvOnline demoConfig 10 0 0 demoParentNode).effects
      = [Effect.messageInputReset] ∧
    (onSelected demoEnvOnline demoConfig 10 0 0 demoParentNode).selectedChannelID = 0 ∧
    (onSelected demoEnvOnline demoConfig 10 0 0 (cloneNode 9 demoParentNode)).effects.length = 11 ∧
    (onSelected demoEnvOnline demoConfig 10 0 0
      (cloneNode 9 demoParentNode)).selectedChannelID = 11 := by
  decide

/-- C10 amended: for every node without children whose reference is a channel
identifier, `onSelected` on a clone of the node (same text, same reference, no
children) has the same effects on the message list and the composer, in the
same order, and leaves the same `selectedChannelID` and `selectedGuildID` as
`onSelected` on the node itself. -/
theorem onSelected_clone_same (env : Env) (cfg : Config) (next next2 a : Nat)
    (selC selG c : Snowflake) (n : TreeNode)
    (hc : n.GetChildren = []) (hr : n.GetReference = Reference.ChannelID c) :
    (onSelected env cfg next2 selC selG (cloneNode a n)).effects
        = (onSelected env cfg next selC selG n).effects ∧
      (onSelected env cfg next2 selC selG (cloneNode a n)).selectedChannelID
        = (onSelected env cfg next selC selG n).selectedChannelID ∧
      (onSelected env cfg next2 selC selG (cloneNode a n)).selectedGuildID
        = (onSelected env cfg next selC selG n).selectedGuildID := by
  unfold onSelected
  simp only [cloneNode_GetChildren, cloneNode_GetReference, hc, hr, List.length_nil, ne_eq,
    not_true_eq_false, if_false]
  cases env.CabinetChannel c with
  | none => exact ⟨rfl, rfl, rfl⟩
  | some channel =>
    dsimp only
    cases env.Messages channel.ID (cfg.MessagesLimit % 2 ^ 64).toNat with
    | none => exact ⟨rfl, rfl, rfl⟩
    | some messages => exact ⟨rfl, rfl, rfl⟩

/-- The amended C10 on the node "general" of the example hierarchy. -/
theorem onSelected_clone_same_witness :
    (onSelected demoEnvOnline demoConfig 20 0 0 (cloneNode 9 (channelNode 4 11 "general"))).effects
      = (onSelected demoEnvOnline demoConfig 10 0 0 (channelNode 4 11 "general")).effects :=
  (onSelected_clone_same demoEnvOnline demoConfig 10 20 9 0 0 11 (channelNode 4 11 "general")
    rfl rfl).1

end Discordo

namespace Discordo
open TreeNode

/-- C11, the code in a filtering state under bindings that are not printable
keys: Ctrl+P is rewritten into the Up event and Tab into the Enter event, Home
reaches `Move`, Ctrl+Y reaches `yankID` (the id 11 goes to the clipboard), and
Left reaches `collapseParentNode` (the result node is collapsed and selected). -/
theorem filtering_runs_bindings :
    demoFilteringKeys.isFiltering = true ∧
    (onInputCapture demoEnv demoFilteringKeys (namedEvent 16 "Ctrl+P")).map (fun r => r.2)
      = some (some eventUp) ∧
    (onInputCapture demoEnv demoFilteringKeys (namedEvent 9 "Tab")).map (fun r => r.2)
      = some (some eventEnter) ∧
    (onInputCapture demoEnv demoFilteringKeys (namedEvent 300 "Home")).map
        (fun r => r.1.trace.drop demoFilteringKeys.trace.length) = some [Effect.moveFirst] ∧
    (onInputCapture demoEnv demoFilteringKeys (namedEvent 25 "Ctrl+Y")).map
        (fun r => r.1.trace.drop demoFilteringKeys.trace.length)
      = some [Effect.clipboardWrite 11] ∧
    (onInputCapture demoEnv demoFilteringKeys (namedEvent 301 "Left")).map
        (fun r => (r.1.currentNode, (r.1.deref 1).map IsExpanded))
      = some (some 1, some false) ∧
    (demoFilteringKeys.currentNode, (demoFilteringKeys.deref 1).map IsExpanded)
      = (some 7, some true) := by
  decide

/-- C16, the code when a folder arrives while the widget is filtering: after
Ctrl-F and `createFolderNode`, the children of `tempRoot` are the result node
and the folder node, and `originalRoot` has no child. -/
theorem folder_lands_under_tempRoot :
    (run demoEnv (newGuildsTree demoConfig) [Input.key ctrlFEvent, Input.folder demoFolder]).map
        (fun g => (g.isFiltering, g.resultNode, g.tempRoot.GetChildren.map addr,
          g.originalRoot.GetChildren.map addr))
      = some (true, 1, [1, 3], []) ∧
    (run demoEnv (newGuildsTree demoConfig) [Input.key ctrlFEvent, Input.folder demoFolder]).map
        (fun g => g.tempRoot.GetChildren.map GetText)
      = some [goString "Current Results", goString "[]work[-]"] := by
  decide

/-- C18, the code on the display root itself: `collapseParentNode` dereferences
the nil parent of the root, in the state `newGuildsTree` builds and in the state
`demoGuildState` with a guild; on a child of the root and on nil it completes. -/
theorem collapseParentNode_root_panics :
    (collapseParentNode (newGuildsTree demoConfig) (some 0)).isNone = true ∧
    (collapseParentNode demoGuildState (some demoGuildState.root)).isNone = true ∧
    (collapseParentNode demoGuildState (some 3)).isSome = true ∧
    (collapseParentNode demoGuildState none).isSome = true := by
  decide

/-- C20, the code on a folder without guilds: the folder node has no reference
and no child, so `onSelected` on it fetches the private-channel list and
attaches the private channel below the folder. -/
theorem folder_lists_private_channels :
    (createFolderNode demoEnvPrivate (newGuildsTree demoConfig) demoFolder).originalRoot.GetChildren.map
        (fun m => (m.addr, m.GetReference, m.GetChildren.length)) = [(3, Reference.nil, 0)] ∧
    (onSelectedAt demoEnvPrivate
        (createFolderNode demoEnvPrivate (newGuildsTree demoConfig) demoFolder) 3).trace
      = [Effect.messageInputReset, Effect.fetchPrivateChannels] ∧
    (onSelectedAt demoEnvPrivate
        (createFolderNode demoEnvPrivate (newGuildsTree demoConfig) demoFolder)
        3).originalRoot.GetChildren.map (fun m => m.GetChildren.map GetReference)
      = [[Reference.ChannelID 7]] := by
  decide

end Discordo

namespace Discordo
open TreeNode

theorem clearFilter_exit (gt : guildsTree) :
    (clearFilter gt).isFiltering = false ∧ (clearFilter gt).filterQuery = [] ∧
      (clearFilter gt).root = (clearFilter gt).originalRoot.addr ∧
      (clearFilter gt).filteredNodes = [] := by
  refine ⟨rfl, rfl, ?_, rfl⟩
  show gt.originalRoot.addr = (modifyAt _ _ gt.originalRoot).addr
  rw [addr_modifyAt _ _ (fun _ => addr_setChildren _ _)]

/-- C12: in a filtering state each of Ctrl-F, Escape, Enter, and Backspace on
an empty query is consumed and ends in a state with `isFiltering` false, the
query empty, `originalRoot` as display root and `filteredNodes` empty; each of
Up, Down, PgUp and PgDn is returned as it came and leaves the state, with the
query, the mode, the display root and the results, as it was. -/
theorem filter_exit_and_navigation (env : Env) (gt : guildsTree) (event : EventKey)
    (hf : gt.isFiltering = true) :
    ((event.Key = Key.KeyCtrlF ∨ event.Key = Key.KeyEscape ∨ event.Key = Key.KeyEnter ∨
        ((event.Key = Key.KeyBackspace ∨ event.Key = Key.KeyBackspace2) ∧ gt.filterQuery = [])) →
      ∃ g, onInputCapture env gt event = some (g, none) ∧ g.isFiltering = false ∧
        g.filterQuery = [] ∧ g.root = g.originalRoot.addr ∧ g.filteredNodes = []) ∧
    ((event.Key = Key.KeyUp ∨ event.Key = Key.KeyDown ∨ event.Key = Key.KeyPgUp ∨
        event.Key = Key.KeyPgDn) →
      onInputCapture env gt event = some (gt, some event)) := by
  constructor
  · rintro (h | h | h | ⟨h | h, hq⟩)
    · refine ⟨clearFilter gt, ?_, clearFilter_exit gt⟩
      simp [onInputCapture, h, toggleFilterMode, hf]
    · refine ⟨clearFilter gt, ?_, clearFilter_exit gt⟩
      simp [onInputCapture, h, hf, filterInput]
    · refine ⟨clearFilter (enterSelectedChannel env gt), ?_, clearFilter_exit _⟩
      simp [onInputCapture, h, hf, filterInput]
    · refine ⟨clearFilter gt, ?_, clearFilter_exit gt⟩
      simp [onInputCapture, h, hf, filterInput, hq]
    · refine ⟨clearFilter gt, ?_, clearFilter_exit gt⟩
      simp [onInputCapture, h, hf, filterInput, hq]
  · rintro (h | h | h | h) <;> simp [onInputCapture, h, hf, filterInput]

/-- C12 on the example filtering state with the query "ab": Escape leaves filter mode. -/
theorem filter_exit_and_navigation_witness :
    ∃ g, onInputCapture demoEnv (demoFiltering "ab") escapeEvent = some (g, none) ∧
      g.isFiltering = false ∧ g.filterQuery = [] ∧ g.root = g.originalRoot.addr ∧
      g.filteredNodes = [] :=
  (filter_exit_and_navigation demoEnv (demoFiltering "ab") escapeEvent rfl).1
    (Or.inr (Or.inl rfl))

end Discordo

namespace Discordo
open TreeNode

/-- The number the comparison of the direct-message branch reads off a channel
is the activity key of the channel. -/
theorem msgID_activityKey (ch : Channel) : msgID ch % 2 ^ 64 = activityKey ch := by
  unfold msgID activityKey
  split <;> rfl

/-- C13: on a childless node without reference, when the private-channel list
is fetched and `sort.Slice` returns it reordered and sorted by the comparison
given, the children `onSelected` attaches are the nodes of a list of channels
that is in non-increasing order of activity key (the last-message id when it
is valid, the channel id otherwise) and is, up to order, the list of the
fetched channels that pass the guard of `createChannelNode`. -/
theorem private_channels_sorted (env : Env) (cfg : Config) (next : Nat) (selC selG : Snowflake)
    (node : TreeNode) (channels : List Channel)
    (hc : node.GetChildren = []) (hr : node.GetReference = Reference.nil)
    (hf : env.PrivateChannels = some channels)
    (hperm : (env.sortSlice (fun a b => decide (msgID a % 2 ^ 64 > msgID b % 2 ^ 64))
      channels).Perm channels)
    (hsort : (env.sortSlice (fun a b => decide (msgID a % 2 ^ 64 > msgID b % 2 ^ 64))
      channels).Pairwise (fun a b => ¬ (msgID b % 2 ^ 64 > msgID a % 2 ^ 64))) :
    ∃ attached : List Channel,
      (onSelected env cfg next selC selG node).node.GetChildren.map label
        = attached.map (channelLabel env) ∧
      attached.Pairwise (fun a b => activityKey b ≤ activityKey a) ∧
      attached.Perm (channels.filter (fun c => !channelHidden env c)) := by
  refine ⟨(env.sortSlice (fun a b => decide (msgID a % 2 ^ 64 > msgID b % 2 ^ 64))
      channels).filter (fun c => !channelHidden env c), ?_, ?_, ?_⟩
  · unfold onSelected
    simp only [hc, List.length_nil, ne_eq, not_true_eq_false, if_false, hr, hf]
    rw [createPrivateChannels_children, hc]
    rfl
  · refine List.Pairwise.sublist (List.filter_sublist _) ?_
    refine hsort.imp ?_
    intro a b h
    rw [← msgID_activityKey a, ← msgID_activityKey b]
    exact Nat.le_of_not_lt h
  · exact hperm.filter _

/-- C13 on three private channels, fetched in the order 60, 5, 6: the one last
written to at 90 comes first, then the one never written to (its key is its own
id 60, not its absent last-message id), then the one last written to at 40. -/
theorem private_channels_sorted_witness :
    (onSelected demoEnvDirect demoConfig 10 0 0 demoDirectNode).node.GetChildren.map GetReference
      = [Reference.ChannelID 5, Reference.ChannelID 60, Reference.ChannelID 6] ∧
    demoPrivateChannels.map activityKey = [60, 90, 40] ∧
    ∃ attached : List Channel,
      (onSelected demoEnvDirect demoConfig 10 0 0 demoDirectNode).node.GetChildren.map label
        = attached.map (channelLabel demoEnvDirect) ∧
      attached.Pairwise (fun a b => activityKey b ≤ activityKey a) ∧
      attached.Perm (demoPrivateChannels.filter (fun c => !channelHidden demoEnvDirect c)) :=
  ⟨by decide, by decide,
   private_channels_sorted demoEnvDirect demoConfig 10 0 0 demoDirectNode demoPrivateChannels
    rfl rfl rfl (by decide) (by decide)⟩

end Discordo

namespace Discordo
open TreeNode

namespace TreeNode

mutual
theorem modifyAt_of_fixed (p : Nat) (f : TreeNode → TreeNode) :
    ∀ t : TreeNode, (∀ m ∈ t.preorder, m.addr = p → f m = m) → modifyAt p f t = t
  | mk a tx r st e cs, h => by
    have hcs : modifyAtList p f cs = cs :=
      modifyAtList_of_fixed p f cs (fun m hm => h m (by simp [preorder, hm]))
    simp only [modifyAt, hcs]
    split
    · rename_i hap
      exact h (mk a tx r st e cs) (by simp [preorder]) hap
    · rfl
theorem modifyAtList_of_fixed (p : Nat) (f : TreeNode → TreeNode) :
    ∀ ts : List TreeNode, (∀ m ∈ preorderList ts, m.addr = p → f m = m) →
      modifyAtList p f ts = ts
  | [], _ => rfl
  | c :: cs, h => by
    simp only [modifyAtList]
    rw [modifyAt_of_fixed p f c (fun m hm => h m (by simp [preorderList, hm])),
      modifyAtList_of_fixed p f cs (fun m hm => h m (by simp [preorderList, hm]))]
end

end TreeNode

/-- A call of `onSelected` on a childless node whose fetch fails gives back the
node, the allocator and the selected ids as they were. -/
theorem onSelected_of_fetchFails (env : Env) (cfg : Config) (next : Nat) (selC selG : Snowflake)
    (node : TreeNode) (hc : node.GetChildren = []) (hf : fetchFails env cfg node) :
    (onSelected env cfg next selC selG node).node = node ∧
      (onSelected env cfg next selC selG node).next = next ∧
      (onSelected env cfg next selC selG node).selectedChannelID = selC ∧
      (onSelected env cfg next selC selG node).selectedGuildID = selG := by
  unfold fetchFails at hf
  unfold onSelected
  simp only [hc, List.length_nil, ne_eq, not_true_eq_false, if_false]
  cases hr : node.GetReference with
  | nil =>
    rw [hr] at hf
    simp only [hf]
    refine ⟨?_, ?_, ?_, ?_⟩ <;> first | rfl | trivial
  | GuildID g =>
    rw [hr] at hf
    simp only [hf]
    refine ⟨?_, ?_, ?_, ?_⟩ <;> first | rfl | trivial
  | ChannelID c =>
    rw [hr] at hf
    rcases hf with h1 | ⟨ch, h1, h2⟩
    · simp only [h1]
      refine ⟨?_, ?_, ?_, ?_⟩ <;> first | rfl | trivial
    · simp only [h1, h2]
      refine ⟨?_, ?_, ?_, ?_⟩ <;> first | rfl | trivial
  | nodeInfo o q =>
    exact ⟨rfl, rfl, rfl, rfl⟩

/-- C14: when the fetch chosen by the reference kind of a childless node fails,
`onSelected` attaches no child to the node and gives back the node, the
allocator, `selectedChannelID` and `selectedGuildID` as they were; called
through a pointer to that node it leaves both trees of the widget, the node
included, and the two selected ids unchanged. -/
theorem onSelected_fetch_failure (env : Env) (gt : guildsTree) (p : Nat) (node : TreeNode)
    (hp : gt.PointsTo p node) (hc : node.GetChildren = []) (hf : fetchFails env gt.cfg node) :
    (onSelected env gt.cfg gt.next gt.selectedChannelID gt.selectedGuildID node).node = node ∧
      (onSelectedAt env gt p).originalRoot = gt.originalRoot ∧
      (onSelectedAt env gt p).tempRoot = gt.tempRoot ∧
      (onSelectedAt env gt p).deref p = some node ∧
      (onSelectedAt env gt p).selectedChannelID = gt.selectedChannelID ∧
      (onSelectedAt env gt p).selectedGuildID = gt.selectedGuildID ∧
      (onSelectedAt env gt p).next = gt.next := by
  have hloc := onSelected_of_fetchFails env gt.cfg gt.next gt.selectedChannelID
    gt.selectedGuildID node hc hf
  obtain ⟨hd, hu⟩ := hp
  have ho : modifyAt p (fun m =>
      (onSelected env gt.cfg gt.next gt.selectedChannelID gt.selectedGuildID m).node)
      gt.originalRoot = gt.originalRoot :=
    modifyAt_of_fixed p _ _ (fun m hm hmp => by
      rw [hu m (List.mem_append_left _ hm) hmp]; exact hloc.1)
  have ht : modifyAt p (fun m =>
      (onSelected env gt.cfg gt.next gt.selectedChannelID gt.selectedGuildID m).node)
      gt.tempRoot = gt.tempRoot :=
    modifyAt_of_fixed p _ _ (fun m hm hmp => by
      rw [hu m (List.mem_append_right _ hm) hmp]; exact hloc.1)
  unfold onSelectedAt
  simp only [hd, guildsTree.update, ho, ht, hloc.2.1, hloc.2.2.1, hloc.2.2.2]
  refine ⟨hloc.1, trivial, trivial, ?_, trivial, trivial, trivial⟩
  exact hd

/-- C14 on the guild node of the example state, whose channel list cannot be fetched. -/
theorem onSelected_fetch_failure_witness :
    (onSelectedAt demoEnv demoGuildState 3).originalRoot = demoGuildState.originalRoot ∧
      (onSelectedAt demoEnv demoGuildState 3).tempRoot = demoGuildState.tempRoot :=
  ⟨(onSelected_fetch_failure demoEnv demoGuildState 3 demoGuildNode
      ⟨rfl, by
        intro m hm hp
        simp only [demoGuildState, newGuildsTree, demoGuildNode, preorder, preorderList,
          NewTreeNode, SetReference, AddChild, List.append_nil, List.nil_append,
          List.cons_append, List.mem_cons, List.mem_singleton, List.not_mem_nil, or_false] at hm
        rcases hm with h | h | h | h <;> rw [h] at hp ⊢ <;> first | rfl | (exact absurd hp (by decide))⟩
      rfl rfl).2.1,
   (onSelected_fetch_failure demoEnv demoGuildState 3 demoGuildNode
      ⟨rfl, by
        intro m hm hp
        simp only [demoGuildState, newGuildsTree, demoGuildNode, preorder, preorderList,
          NewTreeNode, SetReference, AddChild, List.append_nil, List.nil_append,
          List.cons_append, List.mem_cons, List.mem_singleton, List.not_mem_nil, or_false] at hm
        rcases hm with h | h | h | h <;> rw [h] at hp ⊢ <;> first | rfl | (exact absurd hp (by decide))⟩
      rfl rfl).2.2.1⟩

end Discordo

namespace Discordo
open TreeNode

/-- C15: `unreadStyle` gives dim only for a read channel, bold only for an
unread one, bold and underlined without dim for a mentioned one, and the
default style for every other indication. -/
theorem unreadStyle_table :
    unreadStyle UnreadIndication.ChannelRead = { dim := true, bold := false, underline := false } ∧
    unreadStyle UnreadIndication.ChannelUnread
      = { dim := false, bold := true, underline := false } ∧
    unreadStyle UnreadIndication.ChannelMentioned
      = { dim := false, bold := true, underline := true } ∧
    ∀ n : Nat, unreadStyle (UnreadIndication.other n) = {} :=
  ⟨rfl, rfl, rfl, fun _ => rfl⟩

end Discordo

namespace Discordo
open TreeNode

theorem SetExpanded_twice (n : TreeNode) :
    (n.SetExpanded (!n.IsExpanded)).SetExpanded (!(n.SetExpanded (!n.IsExpanded)).IsExpanded)
      = n := by
  cases n with
  | mk a tx r st e cs => simp [SetExpanded, IsExpanded]

theorem onSelected_of_children (env : Env) (cfg : Config) (next : Nat) (selC selG : Snowflake)
    (node : TreeNode) (hc : node.GetChildren ≠ []) :
    onSelected env cfg next selC selG node =
      Selected.mk (node.SetExpanded (!node.IsExpanded)) next selC selG
        [Effect.messageInputReset] := by
  have hlen : node.GetChildren.length ≠ 0 := fun h0 => hc (List.length_eq_zero.mp h0)
  unfold onSelected
  rw [if_pos hlen]

theorem SetExpanded_eq_mk (n : TreeNode) (b : Bool) :
    n.SetExpanded b = TreeNode.mk n.addr n.GetText n.GetReference n.style b n.GetChildren := by
  cases n; rfl

/-- C17: on a node with at least one child, `onSelected` gives back the node
with its expanded flag negated and its address, text, reference, style and
children as they were, makes no fetch, allocates no node and keeps
`selectedChannelID` and `selectedGuildID`; a second call gives back the node
as it was, with the expanded flag it had at first. -/
theorem onSelected_toggles (env : Env) (cfg : Config) (next : Nat) (selC selG : Snowflake)
    (node : TreeNode) (hc : node.GetChildren ≠ []) :
    (onSelectedTwice env cfg next selC selG node).1.node
        = TreeNode.mk node.addr node.GetText node.GetReference node.style
            (!node.IsExpanded) node.GetChildren ∧
      (onSelectedTwice env cfg next selC selG node).1.node.IsExpanded = (!node.IsExpanded) ∧
      (onSelectedTwice env cfg next selC selG node).1.node.GetChildren = node.GetChildren ∧
      (onSelectedTwice env cfg next selC selG node).1.effects.countP Effect.isFetch = 0 ∧
      (onSelectedTwice env cfg next selC selG node).1.next = next ∧
      (onSelectedTwice env cfg next selC selG node).1.selectedChannelID = selC ∧
      (onSelectedTwice env cfg next selC selG node).1.selectedGuildID = selG ∧
      (onSelectedTwice env cfg next selC selG node).2.node = node ∧
      (onSelectedTwice env cfg next selC selG node).2.node.IsExpanded = node.IsExpanded ∧
      (onSelectedTwice env cfg next selC selG node).2.effects.countP Effect.isFetch = 0 := by
  have h1 := onSelected_of_children env cfg next selC selG node hc
  have hc2 : (node.SetExpanded (!node.IsExpanded)).GetChildren ≠ [] := by
    rw [GetChildren_SetExpanded]; exact hc
  have h2 := onSelected_of_children env cfg next selC selG _ hc2
  have hfst : (onSelectedTwice env cfg next selC selG node).1 =
      Selected.mk (node.SetExpanded (!node.IsExpanded)) next selC selG
        [Effect.messageInputReset] := by
    unfold onSelectedTwice; exact h1
  have hsnd : (onSelectedTwice env cfg next selC selG node).2 =
      Selected.mk node next selC selG [Effect.messageInputReset] := by
    unfold onSelectedTwice
    simp only [h1, h2, SetExpanded_twice]
  rw [hfst, hsnd]
  refine ⟨SetExpanded_eq_mk node _, ?_, GetChildren_SetExpanded _ _, rfl, rfl, rfl, rfl, rfl,
    rfl, rfl⟩
  show (node.SetExpanded (!node.IsExpanded)).IsExpanded = (!node.IsExpanded)
  rw [SetExpanded_eq_mk]; rfl

/-- C17 on the channel node of the examples that has a child and is expanded:
the first call leaves it collapsed, with the same child, the second call leaves
it expanded again. -/
theorem onSelected_toggles_witness :
    demoParentNode.IsExpanded = true ∧
      (onSelectedTwice demoEnvOnline demoConfig 10 0 0 demoParentNode).1.node
        = TreeNode.mk 4 (goString "lobby") (Reference.ChannelID 11) {} false
            [channelNode 5 12 "thread"] ∧
      (onSelectedTwice demoEnvOnline demoConfig 10 0 0 demoParentNode).1.node.IsExpanded
        = false ∧
      (onSelectedTwice demoEnvOnline demoConfig 10 0 0 demoParentNode).2.node = demoParentNode ∧
      (onSelectedTwice demoEnvOnline demoConfig 10 0 0 demoParentNode).2.node.IsExpanded
        = true :=
  ⟨rfl,
   (onSelected_toggles demoEnvOnline demoConfig 10 0 0 demoParentNode
      (fun h => absurd (congrArg List.length h) (by decide))).1,
   (onSelected_toggles demoEnvOnline demoConfig 10 0 0 demoParentNode
      (fun h => absurd (congrArg List.length h) (by decide))).2.1,
   (onSelected_toggles demoEnvOnline demoConfig 10 0 0 demoParentNode
      (fun h => absurd (congrArg List.length h) (by decide))).2.2.2.2.2.2.2.1,
   (onSelected_toggles demoEnvOnline demoConfig 10 0 0 demoParentNode
      (fun h => absurd (congrArg List.length h) (by decide))).2.2.2.2.2.2.2.2.1⟩

end Discordo

namespace Discordo
open TreeNode

/-- C19 as stated fails: with the pairwise distinct ids 1, 2, 3, a category
(id 2) that a channel names as parent and that has a valid parent id of its own
is attached by the second loop and again by the third: two nodes below the
guild node reference the channel id 2. -/
theorem category_attached_twice :
    ([demoChannel 1 0 ChannelType.GuildText "top",
      demoChannel 2 1 ChannelType.GuildCategory "cat",
      demoChannel 3 2 ChannelType.GuildText "ch"].map (fun c => c.ID)) = [1, 2, 3] ∧
    (preorderList (createChannelNodes demoEnv 10 demoGuildNode
        [demoChannel 1 0 ChannelType.GuildText "top",
         demoChannel 2 1 ChannelType.GuildCategory "cat",
         demoChannel 3 2 ChannelType.GuildText "ch"]).1.GetChildren).map GetReference
      = [Reference.ChannelID 1, Reference.ChannelID 2, Reference.ChannelID 2,
         Reference.ChannelID 3] := by
  decide

/-- C19 amended: for every channel list with pairwise distinct channel ids in
which no category channel has a valid parent id, after `createChannelNodes` on
a node without children the references of the nodes below that node are
pairwise distinct: no channel id is the reference of two of them.  The new
nodes get addresses from `next` on, which lie above the address of the node. -/
theorem channel_attached_once (env : Env) (next : Nat) (node : TreeNode)
    (channels : List Channel) (hc : node.GetChildren = []) (hfresh : node.addr < next)
    (hids : (channels.map (fun c => c.ID)).Nodup)
    (hcat : ∀ c ∈ channels, c.Type_ = ChannelType.GuildCategory → c.ParentID.IsValid = false) :
    ((preorderList (createChannelNodes env next node channels).1.GetChildren).map
      GetReference).Nodup := by
  have hinj : ∀ c ∈ channels, ∀ d ∈ channels, c.ID = d.ID → c = d :=
    fun c hcm d hdm h => List.inj_on_of_nodup_map hids hcm hdm h
  have hsubnd : ∀ (q : Channel → Bool), ((channels.filter q).map (fun c => c.ID)).Nodup :=
    fun q => List.Nodup.sublist (List.Sublist.map _ (List.filter_sublist _)) hids
  have h0 : AttachedOnce next [] node := by
    refine ⟨?_, ?_, ?_, ?_⟩
    · rw [preorder_leaf node hc]; exact List.nodup_singleton _
    · intro a ha
      rw [preorder_leaf node hc] at ha
      simp only [List.map_cons, List.map_nil, List.mem_singleton] at ha
      rw [ha]; exact hfresh
    · rw [hc]; exact List.nodup_nil
    · intro r hr
      rw [hc] at hr
      cases hr
  have h1 := AttachedOnce_createTopLevel env channels [] next node h0
    (fun c _ hin => by cases hin) (hsubnd _)
  have h2 := AttachedOnce_createCategories env channels channels _ _ _ h1
    (by
      intro c hcm hin
      rw [List.nil_append] at hin
      obtain ⟨d, hd, hdc⟩ := List.mem_map.mp hin
      have hcm' := List.mem_filter.mp hcm
      have hd' := List.mem_filter.mp hd
      have hdc' : d = c := hinj d hd'.1 c hcm'.1 hdc
      rw [hdc'] at hd'
      have h3 := of_decide_eq_true hd'.2
      have h4 := of_decide_eq_true hcm'.2
      exact h3.1 h4.1)
    (hsubnd _)
  have h3 := AttachedOnce_createNested env channels _ _ _ h2
    (by
      intro c hcm hin
      have hcm' := List.mem_filter.mp hcm
      have hvalid : c.ParentID.IsValid = true := hcm'.2
      rw [List.nil_append] at hin
      rcases List.mem_append.mp hin with hin1 | hin1
      · obtain ⟨d, hd, hdc⟩ := List.mem_map.mp hin1
        have hd' := List.mem_filter.mp hd
        have hdc' : d = c := hinj d hd'.1 c hcm'.1 hdc
        rw [hdc'] at hd'
        exact (of_decide_eq_true hd'.2).2 hvalid
      · obtain ⟨d, hd, hdc⟩ := List.mem_map.mp hin1
        have hd' := List.mem_filter.mp hd
        have hdc' : d = c := hinj d hd'.1 c hcm'.1 hdc
        rw [hdc'] at hd'
        have := hcat c hcm'.1 (of_decide_eq_true hd'.2).1
        rw [hvalid] at this
        cases this)
    (hsubnd _)
  simp only [createChannelNodes]
  exact h3.2.2.1

/-- The amended C19 on the channel list of the end-to-end scenario. -/
theorem channel_attached_once_witness :
    ((preorderList (createChannelNodes demoEnv 10 demoGuildNode
        demoGuildChannels).1.GetChildren).map GetReference).Nodup :=
  channel_attached_once demoEnv 10 demoGuildNode demoGuildChannels rfl (by decide) (by decide)
    (by decide)

end Discordo
